import Mathlib

/-!
Verification of the reference-maintenance core of the leetcodetracker
repository: the storage layer (`src/server/storage.ts`) that keeps
Pattern/Trick `usageCount` and `problems` back-references consistent with
each Problem's `patterns`/`tricks` arrays, and the client-side problem
filter (`src/client/src/components/ProblemList.tsx`).

JavaScript strings are modelled as lists of code points (`JStr`),
JavaScript numbers used as counters are modelled as `Int`, and the three
Firestore collections are modelled as association lists keyed by document
id.  Operation definitions follow the TypeScript source function by
function.
-/

namespace LeetcodeTracker

/-- JavaScript strings, modelled as lists of code points. -/
abbrev JStr := List Nat

/-- Per-code-point lowercasing as performed by `String.prototype.toLowerCase`
on the ASCII range (code points 65..90 map to 97..122). -/
def jsToLower (c : Nat) : Nat := if 65 ≤ c ∧ c ≤ 90 then c + 32 else c

/-- `s.toLowerCase()`. -/
def toLowerJ (s : JStr) : JStr := s.map jsToLower

/-- Strict lexicographic order on strings (code-point order), as used by the
store to order documents by `name` for range scans. -/
def strLtJ : JStr → JStr → Bool
  | [], [] => false
  | [], _ :: _ => true
  | _ :: _, [] => false
  | a :: as, b :: bs => if a < b then true else if b < a then false else strLtJ as bs

/-- Reflexive lexicographic order on strings. -/
def strLeJ (a b : JStr) : Bool := !(strLtJ b a)

/-- `hay.startsWith(needle)` (arguments: needle, hay). -/
def startsWithJ : JStr → JStr → Bool
  | [], _ => true
  | _ :: _, [] => false
  | a :: as, b :: bs => a == b && startsWithJ as bs

/-- `hay.includes(needle)` (arguments: needle, hay). -/
def containsJ (needle : JStr) : JStr → Bool
  | [] => startsWithJ needle []
  | c :: t => startsWithJ needle (c :: t) || containsJ needle t

/-- `ProblemReference` (shared/schema.ts): the back-reference stored on a
Pattern/Trick document. -/
structure ProblemReference where
  leetcodeNumber : Nat
  title : JStr
deriving DecidableEq

/-- `PatternReference` (shared/schema.ts): the forward reference stored on a
Problem document. -/
structure PatternReference where
  id : String
  name : JStr
  description : String
deriving DecidableEq

/-- `TrickReference` (shared/schema.ts), same shape as `PatternReference`. -/
structure TrickReference where
  id : String
  name : JStr
  description : String
deriving DecidableEq

/-- A Pattern document as stored in the `patterns` collection; the document
id is the association-list key, not a field. -/
structure Pattern where
  name : JStr
  description : String
  usageCount : Int
  problems : List ProblemReference
deriving DecidableEq

/-- A Trick document as stored in the `tricks` collection. -/
structure Trick where
  name : JStr
  description : String
  usageCount : Int
  problems : List ProblemReference
deriving DecidableEq

/-- A Problem document (fields relevant to the reference-maintenance core
and the query surface). -/
structure Problem where
  leetcodeNumber : Nat
  title : JStr
  difficulty : String
  isStarred : Bool
  isCompleted : Bool
  patterns : List PatternReference
  tricks : List TrickReference
  createdAt : String
  updatedAt : String
deriving DecidableEq

/-- A Firestore collection keyed by document id. -/
abbrev Coll (α : Type) := List (String × α)

/-- `collection.doc(id).get()`: the first document whose id matches. -/
def getDoc {α : Type} : Coll α → String → Option α
  | [], _ => none
  | e :: t, id => if e.1 == id then some e.2 else getDoc t id

/-- Transactional read-modify-write of the document `id`, a no-op when the
document does not exist (the `if (!doc.exists) return` guard). -/
def updDoc {α : Type} : Coll α → String → (α → α) → Coll α
  | [], _, _ => []
  | e :: t, id, f => (if e.1 == id then (e.1, f e.2) else e) :: updDoc t id f

/-- The body of `incrementPatternUsage`: `usageCount := (usageCount || 0) + 1`
(the `|| 0` coalescing is the identity on a present integer field). -/
def bumpUsage (p : Pattern) : Pattern :=
  { p with usageCount := p.usageCount + 1 }

/-- `incrementPatternUsage(id)` (storage.ts, lines 345-354). -/
def incrementPatternUsage (s : Coll Pattern) (id : String) : Coll Pattern :=
  updDoc s id bumpUsage

/-- The body of `addProblemToPattern`: append a `ProblemReference` unless one
with the same `leetcodeNumber` is already present (storage.ts, lines 385-400). -/
def addProblemRef (pb : Problem) (p : Pattern) : Pattern :=
  if p.problems.any (fun r => r.leetcodeNumber == pb.leetcodeNumber) then p
  else { p with problems := p.problems ++ [⟨pb.leetcodeNumber, pb.title⟩] }

/-- `addProblemToPattern(patternId, problem)` (storage.ts, lines 378-402). -/
def addProblemToPattern (s : Coll Pattern) (id : String) (pb : Problem) : Coll Pattern :=
  updDoc s id (addProblemRef pb)

/-- The body of `removeProblemFromPattern`: filter out matching references
and decrement `usageCount` when the list shrank and the count is positive
(storage.ts, lines 411-425). -/
def removeProblemRef (n : Nat) (p : Pattern) : Pattern :=
  let updatedProblems := p.problems.filter (fun r => r.leetcodeNumber != n)
  if updatedProblems.length < p.problems.length then
    if p.usageCount > 0 then
      { p with problems := updatedProblems, usageCount := p.usageCount - 1 }
    else
      { p with problems := updatedProblems }
  else
    { p with problems := updatedProblems }

/-- `removeProblemFromPattern(patternId, leetcodeNumber)` (storage.ts, lines 404-427). -/
def removeProblemFromPattern (s : Coll Pattern) (id : String) (n : Nat) : Coll Pattern :=
  updDoc s id (removeProblemRef n)

/-- The body of `incrementTrickUsage` (storage.ts, lines 513-522). -/
def bumpUsageT (t : Trick) : Trick :=
  { t with usageCount := t.usageCount + 1 }

/-- `incrementTrickUsage(id)` (storage.ts, lines 513-522). -/
def incrementTrickUsage (s : Coll Trick) (id : String) : Coll Trick :=
  updDoc s id bumpUsageT

/-- The body of `addProblemToTrick` (storage.ts, lines 553-568). -/
def addProblemRefT (pb : Problem) (t : Trick) : Trick :=
  if t.problems.any (fun r => r.leetcodeNumber == pb.leetcodeNumber) then t
  else { t with problems := t.problems ++ [⟨pb.leetcodeNumber, pb.title⟩] }

/-- `addProblemToTrick(trickId, problem)` (storage.ts, lines 546-570). -/
def addProblemToTrick (s : Coll Trick) (id : String) (pb : Problem) : Coll Trick :=
  updDoc s id (addProblemRefT pb)

/-- The body of `removeProblemFromTrick` (storage.ts, lines 579-593). -/
def removeProblemRefT (n : Nat) (t : Trick) : Trick :=
  let updatedProblems := t.problems.filter (fun r => r.leetcodeNumber != n)
  if updatedProblems.length < t.problems.length then
    if t.usageCount > 0 then
      { t with problems := updatedProblems, usageCount := t.usageCount - 1 }
    else
      { t with problems := updatedProblems }
  else
    { t with problems := updatedProblems }

/-- `removeProblemFromTrick(trickId, leetcodeNumber)` (storage.ts, lines 572-595). -/
def removeProblemFromTrick (s : Coll Trick) (id : String) (n : Nat) : Coll Trick :=
  updDoc s id (removeProblemRefT n)

/-- The attach step as run by `createProblem`/`updateProblem` for one listed
pattern tag: increment the usage count, then add the problem reference. -/
def attachPattern (s : Coll Pattern) (id : String) (pb : Problem) : Coll Pattern :=
  addProblemToPattern (incrementPatternUsage s id) id pb

/-- The attach step for one listed trick tag. -/
def attachTrick (s : Coll Trick) (id : String) (pb : Problem) : Coll Trick :=
  addProblemToTrick (incrementTrickUsage s id) id pb

section CollLemmas

variable {α : Type}

theorem getDoc_updDoc_self (s : Coll α) (id : String) (f : α → α) :
    getDoc (updDoc s id f) id = (getDoc s id).map f := by
  induction s with
  | nil => rfl
  | cons e t ih =>
    by_cases h : e.1 = id
    · simp [getDoc, updDoc, h]
    · simp [getDoc, updDoc, h, ih]

theorem getDoc_updDoc_ne (s : Coll α) (id t : String) (f : α → α) (h : t ≠ id) :
    getDoc (updDoc s id f) t = getDoc s t := by
  induction s with
  | nil => rfl
  | cons e tl ih =>
    have hit : ¬ (id = t) := fun hc => h hc.symm
    by_cases he : e.1 = id
    · have ht : ¬ (e.1 = t) := fun hc => h (by rw [← hc, he])
      simp [getDoc, updDoc, he, ht, hit, ih]
    · by_cases ht : e.1 = t
      · simp [getDoc, updDoc, he, ht, hit, h]
      · simp [getDoc, updDoc, he, ht, ih]

theorem updDoc_keys (s : Coll α) (id : String) (f : α → α) :
    (updDoc s id f).map (fun e => e.1) = s.map (fun e => e.1) := by
  induction s with
  | nil => rfl
  | cons e t ih =>
    by_cases h : e.1 = id
    · simp [updDoc, h, ih]
    · simp [updDoc, h, ih]

theorem updDoc_eq_of_getDoc_none (s : Coll α) (id : String) (f : α → α)
    (h : getDoc s id = none) : updDoc s id f = s := by
  induction s with
  | nil => rfl
  | cons e t ih =>
    by_cases he : e.1 = id
    · simp [getDoc, he] at h
    · simp [getDoc, he] at h
      simp [updDoc, he, ih h]

end CollLemmas

/-- One attach or detach step applied to a single Pattern document, in the
order the storage layer runs the sub-steps (increment then add). -/
inductive RefOp where
  | attach (pb : Problem)
  | detach (n : Nat)
deriving DecidableEq

/-- Apply one attach/detach step to a Pattern document. -/
def applyRefOpP (p : Pattern) : RefOp → Pattern
  | .attach pb => addProblemRef pb (bumpUsage p)
  | .detach n => removeProblemRef n p

/-- Apply one attach/detach step to a Trick document. -/
def applyRefOpT (t : Trick) : RefOp → Trick
  | .attach pb => addProblemRefT pb (bumpUsageT t)
  | .detach n => removeProblemRefT n t

theorem addProblemRef_usageCount (pb : Problem) (p : Pattern) :
    (addProblemRef pb p).usageCount = p.usageCount := by
  unfold addProblemRef; split <;> rfl

theorem addProblemRef_name (pb : Problem) (p : Pattern) :
    (addProblemRef pb p).name = p.name := by
  unfold addProblemRef; split <;> rfl

theorem addProblemRef_description (pb : Problem) (p : Pattern) :
    (addProblemRef pb p).description = p.description := by
  unfold addProblemRef; split <;> rfl

theorem removeProblemRef_usageCount_nonneg (n : Nat) (p : Pattern)
    (h : 0 ≤ p.usageCount) : 0 ≤ (removeProblemRef n p).usageCount := by
  unfold removeProblemRef
  dsimp only
  split
  · split
    · simp only; omega
    · simpa using h
  · simpa using h

theorem addProblemRefT_usageCount (pb : Problem) (t : Trick) :
    (addProblemRefT pb t).usageCount = t.usageCount := by
  unfold addProblemRefT; split <;> rfl

theorem addProblemRefT_name (pb : Problem) (t : Trick) :
    (addProblemRefT pb t).name = t.name := by
  unfold addProblemRefT; split <;> rfl

theorem addProblemRefT_description (pb : Problem) (t : Trick) :
    (addProblemRefT pb t).description = t.description := by
  unfold addProblemRefT; split <;> rfl

theorem removeProblemRefT_usageCount_nonneg (n : Nat) (t : Trick)
    (h : 0 ≤ t.usageCount) : 0 ≤ (removeProblemRefT n t).usageCount := by
  unfold removeProblemRefT
  dsimp only
  split
  · split
    · simp only; omega
    · simpa using h
  · simpa using h

theorem applyRefOpP_usageCount_nonneg (p : Pattern) (op : RefOp)
    (h : 0 ≤ p.usageCount) : 0 ≤ (applyRefOpP p op).usageCount := by
  cases op with
  | attach pb =>
    simp only [applyRefOpP, addProblemRef_usageCount, bumpUsage]
    omega
  | detach n => exact removeProblemRef_usageCount_nonneg n p h

theorem applyRefOpT_usageCount_nonneg (t : Trick) (op : RefOp)
    (h : 0 ≤ t.usageCount) : 0 ≤ (applyRefOpT t op).usageCount := by
  cases op with
  | attach pb =>
    simp only [applyRefOpT, addProblemRefT_usageCount, bumpUsageT]
    omega
  | detach n => exact removeProblemRefT_usageCount_nonneg n t h

/-- C2: for every Pattern or Trick and every finite sequence of attach and
detach operations applied to it (in any order, including more detaches than
attaches), its `usageCount` stays non-negative after every step: since every
finite sequence of steps is covered, so is every prefix of a longer run. -/
theorem usageCount_nonneg_after_ops (p : Pattern) (t : Trick) (ops : List RefOp)
    (hp : 0 ≤ p.usageCount) (ht : 0 ≤ t.usageCount) :
    0 ≤ (ops.foldl applyRefOpP p).usageCount ∧
    0 ≤ (ops.foldl applyRefOpT t).usageCount := by
  induction ops generalizing p t with
  | nil => exact ⟨hp, ht⟩
  | cons op rest ih =>
    exact ih (applyRefOpP p op) (applyRefOpT t op)
      (applyRefOpP_usageCount_nonneg p op hp)
      (applyRefOpT_usageCount_nonneg t op ht)

/-- A concrete problem used by witnesses. -/
def sampleProblem : Problem :=
  { leetcodeNumber := 1, title := [116], difficulty := "Easy",
    isStarred := false, isCompleted := false,
    patterns := [], tricks := [], createdAt := "", updatedAt := "" }

/-- A concrete pattern document used by witnesses. -/
def samplePattern : Pattern :=
  { name := [97], description := "", usageCount := 1, problems := [] }

/-- A concrete trick document used by witnesses. -/
def sampleTrick : Trick :=
  { name := [98], description := "", usageCount := 1, problems := [] }

/-- Witness for C2 at a concrete Pattern/Trick and a sequence with more
detaches than attaches. -/
theorem usageCount_nonneg_after_ops_witness :
    0 ≤ samplePattern.usageCount ∧ 0 ≤ sampleTrick.usageCount ∧
    (0 ≤ ([RefOp.detach 5, RefOp.detach 5, RefOp.attach sampleProblem,
            RefOp.detach 1, RefOp.detach 1].foldl applyRefOpP samplePattern).usageCount ∧
     0 ≤ ([RefOp.detach 5, RefOp.detach 5, RefOp.attach sampleProblem,
            RefOp.detach 1, RefOp.detach 1].foldl applyRefOpT sampleTrick).usageCount) :=
  ⟨by decide, by decide,
    usageCount_nonneg_after_ops samplePattern sampleTrick
      [RefOp.detach 5, RefOp.detach 5, RefOp.attach sampleProblem,
        RefOp.detach 1, RefOp.detach 1] (by decide) (by decide)⟩

theorem length_filter_ne_lt_iff_any (l : List ProblemReference) (n : Nat) :
    ((l.filter (fun r => r.leetcodeNumber != n)).length < l.length) ↔
      l.any (fun r => r.leetcodeNumber == n) = true := by
  induction l with
  | nil => simp
  | cons r t ih =>
    by_cases h : r.leetcodeNumber = n
    · have hb : (r.leetcodeNumber != n) = false := by simp [h]
      have hl : (t.filter (fun r => r.leetcodeNumber != n)).length ≤ t.length :=
        List.length_filter_le _ t
      simp [List.filter_cons, List.any_cons, hb, h, Nat.lt_succ_of_le hl]
    · have hb : (r.leetcodeNumber != n) = true := by simp [h]
      simp only [List.filter_cons, List.any_cons, hb, if_true, List.length_cons,
        Nat.succ_lt_succ_iff, h]
      simpa [h] using ih

theorem removeProblemRef_of_not_mem (n : Nat) (p : Pattern)
    (h : p.problems.any (fun r => r.leetcodeNumber == n) = false) :
    removeProblemRef n p = p := by
  have hall : ∀ r ∈ p.problems, (r.leetcodeNumber != n) = true := by
    intro r hr
    have := List.any_eq_false.mp h r hr
    simpa using this
  have hfilter : p.problems.filter (fun r => r.leetcodeNumber != n) = p.problems :=
    List.filter_eq_self.mpr hall
  unfold removeProblemRef
  simp [hfilter]

theorem removeProblemRefT_of_not_mem (n : Nat) (t : Trick)
    (h : t.problems.any (fun r => r.leetcodeNumber == n) = false) :
    removeProblemRefT n t = t := by
  have hall : ∀ r ∈ t.problems, (r.leetcodeNumber != n) = true := by
    intro r hr
    have := List.any_eq_false.mp h r hr
    simpa using this
  have hfilter : t.problems.filter (fun r => r.leetcodeNumber != n) = t.problems :=
    List.filter_eq_self.mpr hall
  unfold removeProblemRefT
  simp [hfilter]

theorem removeProblemRef_usageCount_char (n : Nat) (p : Pattern)
    (h0 : 0 ≤ p.usageCount) :
    (removeProblemRef n p).usageCount =
      (if p.problems.any (fun r => r.leetcodeNumber == n) then
        max (p.usageCount - 1) 0 else p.usageCount) := by
  unfold removeProblemRef
  dsimp only
  by_cases hany : p.problems.any (fun r => r.leetcodeNumber == n) = true
  · have hlt := (length_filter_ne_lt_iff_any p.problems n).mpr hany
    rw [if_pos hlt, if_pos hany]
    by_cases hu : p.usageCount > 0
    · rw [if_pos hu]; simp only; omega
    · rw [if_neg hu]; simp only; omega
  · have hlt : ¬ ((p.problems.filter (fun r => r.leetcodeNumber != n)).length
        < p.problems.length) := fun hc =>
      hany ((length_filter_ne_lt_iff_any p.problems n).mp hc)
    rw [if_neg hlt, if_neg hany]

theorem removeProblemRefT_usageCount_char (n : Nat) (t : Trick)
    (h0 : 0 ≤ t.usageCount) :
    (removeProblemRefT n t).usageCount =
      (if t.problems.any (fun r => r.leetcodeNumber == n) then
        max (t.usageCount - 1) 0 else t.usageCount) := by
  unfold removeProblemRefT
  dsimp only
  by_cases hany : t.problems.any (fun r => r.leetcodeNumber == n) = true
  · have hlt := (length_filter_ne_lt_iff_any t.problems n).mpr hany
    rw [if_pos hlt, if_pos hany]
    by_cases hu : t.usageCount > 0
    · rw [if_pos hu]; simp only; omega
    · rw [if_neg hu]; simp only; omega
  · have hlt : ¬ ((t.problems.filter (fun r => r.leetcodeNumber != n)).length
        < t.problems.length) := fun hc =>
      hany ((length_filter_ne_lt_iff_any t.problems n).mp hc)
    rw [if_neg hlt, if_neg hany]

theorem removeProblemRef_problems (n : Nat) (p : Pattern) :
    (removeProblemRef n p).problems =
      p.problems.filter (fun r => r.leetcodeNumber != n) := by
  unfold removeProblemRef
  dsimp only
  split
  · split <;> rfl
  · rfl

theorem removeProblemRefT_problems (n : Nat) (t : Trick) :
    (removeProblemRefT n t).problems =
      t.problems.filter (fun r => r.leetcodeNumber != n) := by
  unfold removeProblemRefT
  dsimp only
  split
  · split <;> rfl
  · rfl

/-- C7: `removeProblemFromPattern`/`removeProblemFromTrick` remove every
entry matching the leetcode number from `problems`, decrement `usageCount`
by exactly 1 (never going below 0) if and only if the list shrank (i.e. some
entry matched), leave the document entirely unchanged when no entry matched,
and are silent no-ops when the Pattern/Trick id is absent. -/
theorem detach_characterization (s : Coll Pattern) (st : Coll Trick)
    (id : String) (n : Nat) (p : Pattern) (tk : Trick)
    (hp : getDoc s id = some p) (h0 : 0 ≤ p.usageCount)
    (htk : getDoc st id = some tk) (h0t : 0 ≤ tk.usageCount) :
    (getDoc (removeProblemFromPattern s id n) id = some (removeProblemRef n p) ∧
     (removeProblemRef n p).problems =
        p.problems.filter (fun r => r.leetcodeNumber != n) ∧
     (removeProblemRef n p).usageCount =
        (if p.problems.any (fun r => r.leetcodeNumber == n) then
          max (p.usageCount - 1) 0 else p.usageCount) ∧
     (p.problems.any (fun r => r.leetcodeNumber == n) = false →
        removeProblemRef n p = p) ∧
     (∀ s' : Coll Pattern, getDoc s' id = none →
        removeProblemFromPattern s' id n = s')) ∧
    (getDoc (removeProblemFromTrick st id n) id = some (removeProblemRefT n tk) ∧
     (removeProblemRefT n tk).problems =
        tk.problems.filter (fun r => r.leetcodeNumber != n) ∧
     (removeProblemRefT n tk).usageCount =
        (if tk.problems.any (fun r => r.leetcodeNumber == n) then
          max (tk.usageCount - 1) 0 else tk.usageCount) ∧
     (tk.problems.any (fun r => r.leetcodeNumber == n) = false →
        removeProblemRefT n tk = tk) ∧
     (∀ st' : Coll Trick, getDoc st' id = none →
        removeProblemFromTrick st' id n = st')) := by
  refine ⟨⟨?_, removeProblemRef_problems n p,
      removeProblemRef_usageCount_char n p h0,
      removeProblemRef_of_not_mem n p, ?_⟩,
    ⟨?_, removeProblemRefT_problems n tk,
      removeProblemRefT_usageCount_char n tk h0t,
      removeProblemRefT_of_not_mem n tk, ?_⟩⟩
  · rw [removeProblemFromPattern, getDoc_updDoc_self, hp]; rfl
  · intro s' hs'
    exact updDoc_eq_of_getDoc_none s' id _ hs'
  · rw [removeProblemFromTrick, getDoc_updDoc_self, htk]; rfl
  · intro st' hst'
    exact updDoc_eq_of_getDoc_none st' id _ hst'

/-- A concrete pattern document holding one problem reference. -/
def samplePatternWithRef : Pattern :=
  { samplePattern with problems := [⟨1, [116]⟩] }

/-- A concrete trick document holding one problem reference. -/
def sampleTrickWithRef : Trick :=
  { sampleTrick with problems := [⟨1, [116]⟩] }

/-- Witness for C7 at a concrete store with one matching reference. -/
theorem detach_characterization_witness :
    getDoc [("p1", samplePatternWithRef)] "p1" = some samplePatternWithRef ∧
    0 ≤ samplePatternWithRef.usageCount ∧
    getDoc [("p1", sampleTrickWithRef)] "p1" = some sampleTrickWithRef ∧
    0 ≤ sampleTrickWithRef.usageCount ∧
    (getDoc (removeProblemFromPattern
        [("p1", samplePatternWithRef)] "p1" 1) "p1" =
      some (removeProblemRef 1 samplePatternWithRef)) :=
  ⟨by decide, by decide, by decide, by decide,
    (detach_characterization
      [("p1", samplePatternWithRef)] [("p1", sampleTrickWithRef)] "p1" 1
      samplePatternWithRef sampleTrickWithRef
      (by decide) (by decide) (by decide) (by decide)).1.1⟩

theorem updDoc_map_col {α β : Type} (g : α → β) (s : Coll α) (id : String)
    (f : α → α) (hf : ∀ a, g (f a) = g a) :
    (updDoc s id f).map (fun e => g e.2) = s.map (fun e => g e.2) := by
  induction s with
  | nil => rfl
  | cons e t ih =>
    by_cases h : e.1 = id
    · simp [updDoc, h, hf, ih]
    · simp [updDoc, h, ih]

/-- C10: the two sub-steps of attach touch disjoint fields.
`addProblemToPattern`/`addProblemToTrick` preserve the document ids and
every document's `usageCount`, `name` and `description` (they only modify
`problems`); `incrementPatternUsage`/`incrementTrickUsage` preserve the
document ids and every document's `problems`, `name` and `description`
(they only modify `usageCount`). -/
theorem attach_substeps_frame (s : Coll Pattern) (st : Coll Trick)
    (id : String) (pb : Problem) :
    ((addProblemToPattern s id pb).map (fun e => e.1) = s.map (fun e => e.1) ∧
     (addProblemToPattern s id pb).map (fun e => e.2.usageCount) =
        s.map (fun e => e.2.usageCount) ∧
     (addProblemToPattern s id pb).map (fun e => e.2.name) =
        s.map (fun e => e.2.name) ∧
     (addProblemToPattern s id pb).map (fun e => e.2.description) =
        s.map (fun e => e.2.description)) ∧
    ((incrementPatternUsage s id).map (fun e => e.1) = s.map (fun e => e.1) ∧
     (incrementPatternUsage s id).map (fun e => e.2.problems) =
        s.map (fun e => e.2.problems) ∧
     (incrementPatternUsage s id).map (fun e => e.2.name) =
        s.map (fun e => e.2.name) ∧
     (incrementPatternUsage s id).map (fun e => e.2.description) =
        s.map (fun e => e.2.description)) ∧
    ((addProblemToTrick st id pb).map (fun e => e.1) = st.map (fun e => e.1) ∧
     (addProblemToTrick st id pb).map (fun e => e.2.usageCount) =
        st.map (fun e => e.2.usageCount) ∧
     (addProblemToTrick st id pb).map (fun e => e.2.name) =
        st.map (fun e => e.2.name) ∧
     (addProblemToTrick st id pb).map (fun e => e.2.description) =
        st.map (fun e => e.2.description)) ∧
    ((incrementTrickUsage st id).map (fun e => e.1) = st.map (fun e => e.1) ∧
     (incrementTrickUsage st id).map (fun e => e.2.problems) =
        st.map (fun e => e.2.problems) ∧
     (incrementTrickUsage st id).map (fun e => e.2.name) =
        st.map (fun e => e.2.name) ∧
     (incrementTrickUsage st id).map (fun e => e.2.description) =
        st.map (fun e => e.2.description)) :=
  ⟨⟨updDoc_keys s id _,
    updDoc_map_col _ s id _ (addProblemRef_usageCount pb),
    updDoc_map_col _ s id _ (addProblemRef_name pb),
    updDoc_map_col _ s id _ (addProblemRef_description pb)⟩,
   ⟨updDoc_keys s id _,
    updDoc_map_col _ s id _ (fun _ => rfl),
    updDoc_map_col _ s id _ (fun _ => rfl),
    updDoc_map_col _ s id _ (fun _ => rfl)⟩,
   ⟨updDoc_keys st id _,
    updDoc_map_col _ st id _ (addProblemRefT_usageCount pb),
    updDoc_map_col _ st id _ (addProblemRefT_name pb),
    updDoc_map_col _ st id _ (addProblemRefT_description pb)⟩,
   ⟨updDoc_keys st id _,
    updDoc_map_col _ st id _ (fun _ => rfl),
    updDoc_map_col _ st id _ (fun _ => rfl),
    updDoc_map_col _ st id _ (fun _ => rfl)⟩⟩

/-- C1 counterexample: attaching the same problem reference to the same
pattern twice in a row does not yield the same end state as attaching it
once, because the increment-usage step runs unconditionally (the usage
count ends at 3 instead of 2). -/
theorem attach_twice_ne_attach_once :
    attachPattern (attachPattern [("p1", samplePattern)] "p1" sampleProblem)
        "p1" sampleProblem ≠
      attachPattern [("p1", samplePattern)] "p1" sampleProblem := by
  decide

/-- C1 (amended): performing the attach step twice in a row leaves the
problem reference exactly once in `problems` (the add-problem-reference
step is idempotent) but increases `usageCount` by exactly 2, not 1 (the
increment-usage step runs unconditionally), for Patterns and Tricks alike. -/
theorem attach_twice_characterization (s : Coll Pattern) (st : Coll Trick)
    (id : String) (pb : Problem) (p : Pattern) (tk : Trick)
    (hp : getDoc s id = some p)
    (hnp : p.problems.any (fun r => r.leetcodeNumber == pb.leetcodeNumber) = false)
    (htk : getDoc st id = some tk)
    (hnt : tk.problems.any (fun r => r.leetcodeNumber == pb.leetcodeNumber) = false) :
    (getDoc (attachPattern s id pb) id =
        some { p with usageCount := p.usageCount + 1,
                      problems := p.problems ++ [⟨pb.leetcodeNumber, pb.title⟩] } ∧
     getDoc (attachPattern (attachPattern s id pb) id pb) id =
        some { p with usageCount := p.usageCount + 2,
                      problems := p.problems ++ [⟨pb.leetcodeNumber, pb.title⟩] }) ∧
    (getDoc (attachTrick st id pb) id =
        some { tk with usageCount := tk.usageCount + 1,
                       problems := tk.problems ++ [⟨pb.leetcodeNumber, pb.title⟩] } ∧
     getDoc (attachTrick (attachTrick st id pb) id pb) id =
        some { tk with usageCount := tk.usageCount + 2,
                       problems := tk.problems ++ [⟨pb.leetcodeNumber, pb.title⟩] }) := by
  have keyP : ∀ (s' : Coll Pattern) (q : Pattern), getDoc s' id = some q →
      getDoc (attachPattern s' id pb) id = some (addProblemRef pb (bumpUsage q)) := by
    intro s' q hq
    rw [attachPattern, addProblemToPattern, getDoc_updDoc_self,
      incrementPatternUsage, getDoc_updDoc_self, hq]
    rfl
  have keyT : ∀ (st' : Coll Trick) (q : Trick), getDoc st' id = some q →
      getDoc (attachTrick st' id pb) id = some (addProblemRefT pb (bumpUsageT q)) := by
    intro st' q hq
    rw [attachTrick, addProblemToTrick, getDoc_updDoc_self,
      incrementTrickUsage, getDoc_updDoc_self, hq]
    rfl
  have h1 : getDoc (attachPattern s id pb) id =
      some { p with usageCount := p.usageCount + 1,
                    problems := p.problems ++ [⟨pb.leetcodeNumber, pb.title⟩] } := by
    rw [keyP s p hp]
    simp [addProblemRef, bumpUsage, hnp]
  have h2 : getDoc (attachPattern (attachPattern s id pb) id pb) id =
      some { p with usageCount := p.usageCount + 2,
                    problems := p.problems ++ [⟨pb.leetcodeNumber, pb.title⟩] } := by
    rw [keyP _ _ h1]
    simp only [addProblemRef, bumpUsage, List.any_append, hnp]
    simp
    omega
  have h1t : getDoc (attachTrick st id pb) id =
      some { tk with usageCount := tk.usageCount + 1,
                     problems := tk.problems ++ [⟨pb.leetcodeNumber, pb.title⟩] } := by
    rw [keyT st tk htk]
    simp [addProblemRefT, bumpUsageT, hnt]
  have h2t : getDoc (attachTrick (attachTrick st id pb) id pb) id =
      some { tk with usageCount := tk.usageCount + 2,
                     problems := tk.problems ++ [⟨pb.leetcodeNumber, pb.title⟩] } := by
    rw [keyT _ _ h1t]
    simp only [addProblemRefT, bumpUsageT, List.any_append, hnt]
    simp
    omega
  exact ⟨⟨h1, h2⟩, h1t, h2t⟩

/-- Witness for the amended C1 at a concrete store. -/
theorem attach_twice_characterization_witness :
    getDoc [("p1", samplePattern)] "p1" = some samplePattern ∧
    samplePattern.problems.any
      (fun r => r.leetcodeNumber == sampleProblem.leetcodeNumber) = false ∧
    getDoc [("p1", sampleTrick)] "p1" = some sampleTrick ∧
    sampleTrick.problems.any
      (fun r => r.leetcodeNumber == sampleProblem.leetcodeNumber) = false ∧
    getDoc (attachPattern (attachPattern [("p1", samplePattern)] "p1" sampleProblem)
        "p1" sampleProblem) "p1" =
      some { samplePattern with
              usageCount := samplePattern.usageCount + 2,
              problems := samplePattern.problems ++
                [⟨sampleProblem.leetcodeNumber, sampleProblem.title⟩] } :=
  ⟨by decide, by decide, by decide, by decide,
    (attach_twice_characterization [("p1", samplePattern)] [("p1", sampleTrick)]
      "p1" sampleProblem samplePattern sampleTrick
      (by decide) (by decide) (by decide) (by decide)).1.2⟩

/-- `InsertPattern` (shared/schema.ts): name and description only. -/
structure InsertPattern where
  name : JStr
  description : String
deriving DecidableEq

/-- `InsertTrick` (shared/schema.ts): name and description only. -/
structure InsertTrick where
  name : JStr
  description : String
deriving DecidableEq

/-- The `where('name', '==', name).limit(1)` lookup used by `createPattern`. -/
def findByNameP (s : Coll Pattern) (name : JStr) : Option (String × Pattern) :=
  s.find? (fun e => e.2.name == name)

/-- The `where('name', '==', name).limit(1)` lookup used by `createTrick`. -/
def findByNameT (s : Coll Trick) (name : JStr) : Option (String × Trick) :=
  s.find? (fun e => e.2.name == name)

/-- `createPattern(pattern)` (storage.ts, lines 313-330): find-or-create by
exact name.  `newId` stands for the generated `docRef.id`.  The stored
document carries no `problems` field; every read coalesces it with
`pattern.problems || []`, so it is modelled as the empty list. -/
def createPattern (s : Coll Pattern) (ins : InsertPattern) (newId : String) :
    Coll Pattern × (String × Pattern) :=
  match findByNameP s ins.name with
  | some e => (s, e)
  | none =>
    let p : Pattern := { name := ins.name, description := ins.description,
                         usageCount := 1, problems := [] }
    (s ++ [(newId, p)], (newId, p))

/-- `createTrick(trick)` (storage.ts, lines 481-498). -/
def createTrick (s : Coll Trick) (ins : InsertTrick) (newId : String) :
    Coll Trick × (String × Trick) :=
  match findByNameT s ins.name with
  | some e => (s, e)
  | none =>
    let t : Trick := { name := ins.name, description := ins.description,
                       usageCount := 1, problems := [] }
    (s ++ [(newId, t)], (newId, t))

/-- C6: `createPattern`/`createTrick` are find-or-create by exact name:
when a row with the name exists the existing record is returned unchanged
(same id, usage count untouched, store untouched); when none exists a new
record with `usageCount = 1` and `problems = []` is inserted; and calling
find-or-create twice with the same name returns the same id both times,
does not change the store on the second call, and does not double the
usage count. -/
theorem createPattern_find_or_create (s : Coll Pattern) (st : Coll Trick)
    (ins : InsertPattern) (insT : InsertTrick) (id1 id2 : String) :
    ((∀ e, findByNameP s ins.name = some e → createPattern s ins id1 = (s, e)) ∧
     (findByNameP s ins.name = none →
        (createPattern s ins id1).2 =
          (id1, { name := ins.name, description := ins.description,
                  usageCount := 1, problems := [] })) ∧
     ((createPattern (createPattern s ins id1).1 ins id2).1 =
        (createPattern s ins id1).1 ∧
      (createPattern (createPattern s ins id1).1 ins id2).2.1 =
        (createPattern s ins id1).2.1 ∧
      (createPattern (createPattern s ins id1).1 ins id2).2.2.usageCount =
        (createPattern s ins id1).2.2.usageCount)) ∧
    ((∀ e, findByNameT st insT.name = some e → createTrick st insT id1 = (st, e)) ∧
     (findByNameT st insT.name = none →
        (createTrick st insT id1).2 =
          (id1, { name := insT.name, description := insT.description,
                  usageCount := 1, problems := [] })) ∧
     ((createTrick (createTrick st insT id1).1 insT id2).1 =
        (createTrick st insT id1).1 ∧
      (createTrick (createTrick st insT id1).1 insT id2).2.1 =
        (createTrick st insT id1).2.1 ∧
      (createTrick (createTrick st insT id1).1 insT id2).2.2.usageCount =
        (createTrick st insT id1).2.2.usageCount)) := by
  have stabP : (createPattern (createPattern s ins id1).1 ins id2).1 =
        (createPattern s ins id1).1 ∧
      (createPattern (createPattern s ins id1).1 ins id2).2.1 =
        (createPattern s ins id1).2.1 ∧
      (createPattern (createPattern s ins id1).1 ins id2).2.2.usageCount =
        (createPattern s ins id1).2.2.usageCount := by
    rcases hfind : findByNameP s ins.name with _ | e
    · have hfind2 : findByNameP (s ++ [(id1,
          ({ name := ins.name, description := ins.description,
             usageCount := 1, problems := [] } : Pattern))]) ins.name =
          some (id1, { name := ins.name, description := ins.description,
                       usageCount := 1, problems := [] }) := by
        unfold findByNameP at hfind ⊢
        rw [List.find?_append, hfind]
        simp
      simp [createPattern, hfind, hfind2]
    · simp [createPattern, hfind]
  have stabT : (createTrick (createTrick st insT id1).1 insT id2).1 =
        (createTrick st insT id1).1 ∧
      (createTrick (createTrick st insT id1).1 insT id2).2.1 =
        (createTrick st insT id1).2.1 ∧
      (createTrick (createTrick st insT id1).1 insT id2).2.2.usageCount =
        (createTrick st insT id1).2.2.usageCount := by
    rcases hfind : findByNameT st insT.name with _ | e
    · have hfind2 : findByNameT (st ++ [(id1,
          ({ name := insT.name, description := insT.description,
             usageCount := 1, problems := [] } : Trick))]) insT.name =
          some (id1, { name := insT.name, description := insT.description,
                       usageCount := 1, problems := [] }) := by
        unfold findByNameT at hfind ⊢
        rw [List.find?_append, hfind]
        simp
      simp [createTrick, hfind, hfind2]
    · simp [createTrick, hfind]
  refine ⟨⟨?_, ?_, stabP⟩, ⟨?_, ?_, stabT⟩⟩
  · intro e he; simp [createPattern, he]
  · intro he; simp [createPattern, he]
  · intro e he; simp [createTrick, he]
  · intro he; simp [createTrick, he]

/-- Witness for C6: on the empty stores the lookup misses and a fresh
record with usage count 1 is inserted. -/
theorem createPattern_find_or_create_witness :
    findByNameP [] { name := [97], description := "d" : InsertPattern }.name = none ∧
    (createPattern [] { name := [97], description := "d" } "n1").2 =
      ("n1", { name := [97], description := "d", usageCount := 1, problems := [] }) :=
  ⟨by decide,
    (createPattern_find_or_create [] [] { name := [97], description := "d" }
      { name := [98], description := "d" } "n1" "n2").1.2.1 (by decide)⟩

/-- The problems collection, keyed by `leetcodeNumber` (the document id
`leetcodeNumber.toString()`). -/
abbrev ProblemColl := List (Nat × Problem)

/-- The full store: three independent collections. -/
structure Store where
  problems : ProblemColl
  patterns : Coll Pattern
  tricks : Coll Trick
deriving DecidableEq

/-- `db.collection(PROBLEMS).doc(n.toString()).get()`. -/
def getProblemDoc : ProblemColl → Nat → Option Problem
  | [], _ => none
  | e :: t, n => if e.1 == n then some e.2 else getProblemDoc t n

/-- `getProblemByLeetcodeNumber(n)` (storage.ts, lines 112-128): a field
equality query over the collection. -/
def getProblemByLeetcodeNumber (s : ProblemColl) (n : Nat) : Option Problem :=
  (s.find? (fun e => e.2.leetcodeNumber == n)).map (fun e => e.2)

/-- `doc(n.toString()).set(problem)`: replace the document if present,
create it otherwise. -/
def setProblemDoc (s : ProblemColl) (n : Nat) (pb : Problem) : ProblemColl :=
  if s.any (fun e => e.1 == n) then
    s.map (fun e => if e.1 == n then (n, pb) else e)
  else
    s ++ [(n, pb)]

/-- `InsertProblem` (shared/schema.ts): a problem minus the server-assigned
timestamps. -/
structure InsertProblem where
  leetcodeNumber : Nat
  title : JStr
  difficulty : String
  isStarred : Bool
  isCompleted : Bool
  patterns : List PatternReference
  tricks : List TrickReference
deriving DecidableEq

/-- `createProblem(insertProblem)` (storage.ts, lines 130-163); `now` stands
for `new Date().toISOString()`.  A `none` result is the `DuplicateKey`
throw, which happens before any write.  For each listed pattern/trick with a
truthy id the usage count is incremented and the problem reference added. -/
def createProblem (st : Store) (ins : InsertProblem) (now : String) :
    Store × Option Problem :=
  match getProblemByLeetcodeNumber st.problems ins.leetcodeNumber with
  | some _ => (st, none)
  | none =>
    let pb : Problem := { leetcodeNumber := ins.leetcodeNumber, title := ins.title,
                          difficulty := ins.difficulty, isStarred := ins.isStarred,
                          isCompleted := ins.isCompleted, patterns := ins.patterns,
                          tricks := ins.tricks, createdAt := now, updatedAt := now }
    let probs := setProblemDoc st.problems ins.leetcodeNumber pb
    let pats := ins.patterns.foldl
      (fun acc pr => if pr.id ≠ "" then attachPattern acc pr.id pb else acc)
      st.patterns
    let trs := ins.tricks.foldl
      (fun acc tr => if tr.id ≠ "" then attachTrick acc tr.id pb else acc)
      st.tricks
    ({ problems := probs, patterns := pats, tricks := trs }, some pb)

/-- Well-formedness of the problems collection: document ids are unique and
each document is keyed by its own `leetcodeNumber`. -/
def ProblemsWF (s : ProblemColl) : Prop :=
  (s.map (fun e => e.1)).Nodup ∧ ∀ e ∈ s, e.1 = e.2.leetcodeNumber

instance (s : ProblemColl) : Decidable (ProblemsWF s) := by
  unfold ProblemsWF
  exact inferInstance

/-- A sequence of create requests processed in order. -/
def runCreates (st : Store) (reqs : List (InsertProblem × String)) : Store :=
  reqs.foldl (fun acc r => (createProblem acc r.1 r.2).1) st

theorem createProblem_preserves_wf (st : Store) (ins : InsertProblem)
    (now : String) (h : ProblemsWF st.problems) :
    ProblemsWF (createProblem st ins now).1.problems := by
  rcases hq : getProblemByLeetcodeNumber st.problems ins.leetcodeNumber with _ | q
  · have hfind : List.find? (fun e => e.2.leetcodeNumber == ins.leetcodeNumber)
        st.problems = none := by
      unfold getProblemByLeetcodeNumber at hq
      exact Option.map_eq_none'.mp hq
    have hnofield : ∀ e ∈ st.problems, e.2.leetcodeNumber ≠ ins.leetcodeNumber := by
      intro e he
      have h2 := List.find?_eq_none.mp hfind e he
      simpa using h2
    have hnokey : ∀ e ∈ st.problems, e.1 ≠ ins.leetcodeNumber := by
      intro e he
      rw [h.2 e he]
      exact hnofield e he
    have hany : st.problems.any (fun e => e.1 == ins.leetcodeNumber) = false := by
      rw [List.any_eq_false]
      intro e he
      simpa using hnokey e he
    simp only [createProblem, hq, setProblemDoc, hany, Bool.false_eq_true, if_false]
    constructor
    · rw [List.map_append]
      refine List.Nodup.append h.1 (by simp) ?_
      simp only [List.map_cons, List.map_nil, List.disjoint_singleton]
      intro hk
      rcases List.mem_map.mp hk with ⟨e, he, hke⟩
      exact hnokey e he hke
    · intro e he
      rcases List.mem_append.mp he with he' | he'
      · exact h.2 e he'
      · simp at he'
        subst he'
        rfl
  · simpa [createProblem, hq] using h

theorem runCreates_preserves_wf (st : Store) (reqs : List (InsertProblem × String))
    (h : ProblemsWF st.problems) : ProblemsWF (runCreates st reqs).problems := by
  induction reqs generalizing st with
  | nil => exact h
  | cons r rest ih =>
    exact ih _ (createProblem_preserves_wf st r.1 r.2 h)

theorem wf_fields_nodup (s : ProblemColl) (h : ProblemsWF s) :
    (s.map (fun e => e.2.leetcodeNumber)).Nodup := by
  have : s.map (fun e => e.2.leetcodeNumber) = s.map (fun e => e.1) := by
    apply List.map_congr_left
    intro e he
    exact (h.2 e he).symm
  rw [this]
  exact h.1

/-- C5: creating a problem whose `leetcodeNumber` is already stored fails
with `DuplicateKey` before any write, leaving the whole store (problems,
patterns and tricks) unchanged; and any sequence of creates starting from a
well-formed store keeps the stored `leetcodeNumber`s pairwise distinct. -/
theorem createProblem_duplicate_unique (st : Store) (ins : InsertProblem)
    (now : String)
    (hdup : getProblemByLeetcodeNumber st.problems ins.leetcodeNumber ≠ none) :
    createProblem st ins now = (st, none) ∧
    ∀ (st' : Store) (reqs : List (InsertProblem × String)),
      ProblemsWF st'.problems →
      ((runCreates st' reqs).problems.map (fun e => e.2.leetcodeNumber)).Nodup := by
  constructor
  · rcases hq : getProblemByLeetcodeNumber st.problems ins.leetcodeNumber with _ | q
    · exact absurd hq hdup
    · simp [createProblem, hq]
  · intro st' reqs hwf
    exact wf_fields_nodup _ (runCreates_preserves_wf st' reqs hwf)

/-- The insert request matching `sampleProblem`. -/
def sampleInsert : InsertProblem :=
  { leetcodeNumber := 1, title := [116], difficulty := "Easy",
    isStarred := false, isCompleted := false, patterns := [], tricks := [] }

/-- A concrete store already holding problem 1. -/
def sampleStore : Store :=
  { problems := [(1, sampleProblem)], patterns := [], tricks := [] }

/-- Witness for C5: a second create of problem 1 returns the store unchanged
with the `DuplicateKey` failure, and a concrete create sequence keeps
leetcode numbers distinct. -/
theorem createProblem_duplicate_unique_witness :
    getProblemByLeetcodeNumber sampleStore.problems
      sampleInsert.leetcodeNumber ≠ none ∧
    createProblem sampleStore sampleInsert "t1" = (sampleStore, none) ∧
    ProblemsWF sampleStore.problems ∧
    ((runCreates sampleStore [(sampleInsert, "t2")]).problems.map
      (fun e => e.2.leetcodeNumber)).Nodup := by
  have h := createProblem_duplicate_unique sampleStore sampleInsert "t1" (by decide)
  exact ⟨by decide, h.1, by decide, h.2 sampleStore [(sampleInsert, "t2")] (by decide)⟩

theorem getDoc_foldl_invar {α β : Type} (step : Coll α → β → Coll α)
    (t : String) (L : List β)
    (hstep : ∀ acc b, b ∈ L → getDoc (step acc b) t = getDoc acc t)
    (acc : Coll α) : getDoc (L.foldl step acc) t = getDoc acc t := by
  induction L generalizing acc with
  | nil => rfl
  | cons b L' ih =>
    rw [List.foldl_cons,
      ih (fun a b' hb' => hstep a b' (List.mem_cons_of_mem b hb')) (step acc b),
      hstep acc b (List.mem_cons_self b L')]

theorem getDoc_foldl_hit {α β : Type} (step : Coll α → β → Coll α)
    (key : β → String) (f : α → α) (t : String) (L : List β)
    (hne : ∀ acc b, key b ≠ t → getDoc (step acc b) t = getDoc acc t)
    (hnd : (L.map key).Nodup) (b₀ : β) (hmem : b₀ ∈ L) (hkey : key b₀ = t)
    (hhit : ∀ acc' b, b ∈ L → key b = t →
      getDoc (step acc' b) t = (getDoc acc' t).map f)
    (acc : Coll α) :
    getDoc (L.foldl step acc) t = (getDoc acc t).map f := by
  induction L generalizing acc with
  | nil => exact absurd hmem (List.not_mem_nil b₀)
  | cons b L' ih =>
    rw [List.foldl_cons]
    by_cases hb : key b = t
    · have hnot : ∀ b' ∈ L', key b' ≠ t := by
        intro b' hb' hc
        have hmem' : key b ∈ L'.map key :=
          List.mem_map.mpr ⟨b', hb', hc.trans hb.symm⟩
        exact (List.nodup_cons.mp (by simpa using hnd)).1 hmem'
      rw [getDoc_foldl_invar step t L'
          (fun a b' hb' => hne a b' (hnot b' hb')) (step acc b),
        hhit acc b (List.mem_cons_self b L') hb]
    · have hmem' : b₀ ∈ L' := by
        rcases List.mem_cons.mp hmem with h | h
        · exact absurd (h ▸ hkey) hb
        · exact h
      rw [ih (List.nodup_cons.mp (by simpa using hnd)).2 hmem'
          (fun a b' hb' hk => hhit a b' (List.mem_cons_of_mem b hb') hk)
          (step acc b),
        hne acc b hb]

theorem getDoc_attachPattern_self (s : Coll Pattern) (id : String) (pb : Problem) :
    getDoc (attachPattern s id pb) id =
      (getDoc s id).map (fun p => addProblemRef pb (bumpUsage p)) := by
  rw [attachPattern, addProblemToPattern, getDoc_updDoc_self,
    incrementPatternUsage, getDoc_updDoc_self, Option.map_map]
  rfl

theorem getDoc_attachPattern_ne (s : Coll Pattern) (id t : String) (pb : Problem)
    (h : t ≠ id) : getDoc (attachPattern s id pb) t = getDoc s t := by
  rw [attachPattern, addProblemToPattern, getDoc_updDoc_ne _ _ _ _ h,
    incrementPatternUsage, getDoc_updDoc_ne _ _ _ _ h]

theorem getDoc_attachTrick_self (s : Coll Trick) (id : String) (pb : Problem) :
    getDoc (attachTrick s id pb) id =
      (getDoc s id).map (fun tk => addProblemRefT pb (bumpUsageT tk)) := by
  rw [attachTrick, addProblemToTrick, getDoc_updDoc_self,
    incrementTrickUsage, getDoc_updDoc_self, Option.map_map]
  rfl

theorem getDoc_attachTrick_ne (s : Coll Trick) (id t : String) (pb : Problem)
    (h : t ≠ id) : getDoc (attachTrick s id pb) t = getDoc s t := by
  rw [attachTrick, addProblemToTrick, getDoc_updDoc_ne _ _ _ _ h,
    incrementTrickUsage, getDoc_updDoc_ne _ _ _ _ h]

/-- `Partial<InsertProblem>` as used by `updateProblem`: each updatable field
optionally present (the storage key `leetcodeNumber` itself is never
mutated). -/
structure PartialInsertProblem where
  title : Option JStr := none
  difficulty : Option String := none
  isStarred : Option Bool := none
  isCompleted : Option Bool := none
  patterns : Option (List PatternReference) := none
  tricks : Option (List TrickReference) := none
deriving DecidableEq

/-- `problemRef.update({...updateData, updatedAt: now})`: merge the defined
fields over the stored record. -/
def mergeProblem (pb : Problem) (u : PartialInsertProblem) (now : String) : Problem :=
  { pb with
    title := u.title.getD pb.title,
    difficulty := u.difficulty.getD pb.difficulty,
    isStarred := u.isStarred.getD pb.isStarred,
    isCompleted := u.isCompleted.getD pb.isCompleted,
    patterns := u.patterns.getD pb.patterns,
    tricks := u.tricks.getD pb.tricks,
    updatedAt := now }

/-- `updateProblem(leetcodeNumber, updateData)` (storage.ts, lines 165-233):
merge the partial data, then diff the old and new `patterns`/`tricks` arrays
by reference id; tags present only in the old array are detached, tags
present only in the new array are attached with the post-update problem
record, in both cases skipping falsy (empty) ids. -/
def updateProblem (st : Store) (n : Nat) (u : PartialInsertProblem)
    (now : String) : Store × Option Problem :=
  match getProblemDoc st.problems n with
  | none => (st, none)
  | some orig =>
    let updated := mergeProblem orig u now
    let probs := setProblemDoc st.problems n updated
    let pats :=
      match u.patterns with
      | none => st.patterns
      | some newPats =>
        let afterRemove := orig.patterns.foldl
          (fun acc op =>
            if (¬ newPats.any (fun p => p.id == op.id)) ∧ op.id ≠ "" then
              removeProblemFromPattern acc op.id n
            else acc)
          st.patterns
        (newPats.filter
          (fun np => ¬ orig.patterns.any (fun op => op.id == np.id))).foldl
          (fun acc p => if p.id ≠ "" then attachPattern acc p.id updated else acc)
          afterRemove
    let trs :=
      match u.tricks with
      | none => st.tricks
      | some newTricks =>
        let afterRemove := orig.tricks.foldl
          (fun acc ot =>
            if (¬ newTricks.any (fun tr => tr.id == ot.id)) ∧ ot.id ≠ "" then
              removeProblemFromTrick acc ot.id n
            else acc)
          st.tricks
        (newTricks.filter
          (fun nt => ¬ orig.tricks.any (fun ot => ot.id == nt.id))).foldl
          (fun acc tr => if tr.id ≠ "" then attachTrick acc tr.id updated else acc)
          afterRemove
    ({ problems := probs, patterns := pats, tricks := trs }, some updated)

/-- `deleteProblem(leetcodeNumber)` (storage.ts, lines 235-259): returns
`false` without changes when the record is absent; otherwise detaches the
problem from every pattern/trick listed on the record (skipping falsy ids),
removes the record and returns `true`. -/
def deleteProblem (st : Store) (n : Nat) : Store × Bool :=
  match getProblemDoc st.problems n with
  | none => (st, false)
  | some pb =>
    let pats := pb.patterns.foldl
      (fun acc pr =>
        if pr.id ≠ "" then removeProblemFromPattern acc pr.id n else acc)
      st.patterns
    let trs := pb.tricks.foldl
      (fun acc tr =>
        if tr.id ≠ "" then removeProblemFromTrick acc tr.id n else acc)
      st.tricks
    ({ problems := st.problems.filter (fun e => e.1 != n),
       patterns := pats, tricks := trs }, true)

theorem updateProblem_patterns_diff (st : Store) (n : Nat)
    (u : PartialInsertProblem) (now : String) (orig : Problem)
    (newPats : List PatternReference) (t : String)
    (hor : getProblemDoc st.problems n = some orig)
    (hup : u.patterns = some newPats)
    (hndOld : (orig.patterns.map (fun r => r.id)).Nodup)
    (hndNew : (newPats.map (fun r => r.id)).Nodup)
    (ht : t ≠ "") :
    (t ∈ orig.patterns.map (fun r => r.id) → t ∉ newPats.map (fun r => r.id) →
       getDoc (updateProblem st n u now).1.patterns t =
         (getDoc st.patterns t).map (removeProblemRef n)) ∧
    (t ∈ newPats.map (fun r => r.id) → t ∉ orig.patterns.map (fun r => r.id) →
       getDoc (updateProblem st n u now).1.patterns t =
         (getDoc st.patterns t).map
           (fun p => addProblemRef (mergeProblem orig u now) (bumpUsage p))) ∧
    (t ∈ orig.patterns.map (fun r => r.id) → t ∈ newPats.map (fun r => r.id) →
       getDoc (updateProblem st n u now).1.patterns t = getDoc st.patterns t) := by
  have hpats : (updateProblem st n u now).1.patterns =
      (newPats.filter
        (fun np => ¬ orig.patterns.any (fun op => op.id == np.id))).foldl
        (fun acc p =>
          if p.id ≠ "" then attachPattern acc p.id (mergeProblem orig u now) else acc)
        (orig.patterns.foldl
          (fun acc op =>
            if (¬ newPats.any (fun p => p.id == op.id)) ∧ op.id ≠ "" then
              removeProblemFromPattern acc op.id n
            else acc)
          st.patterns) := by
    simp only [updateProblem, hor, hup]
  have hneRm : ∀ (acc : Coll Pattern) (b : PatternReference), b.id ≠ t →
      getDoc (if (¬ newPats.any (fun p => p.id == b.id)) ∧ b.id ≠ "" then
        removeProblemFromPattern acc b.id n else acc) t = getDoc acc t := by
    intro acc b hb
    split
    · exact getDoc_updDoc_ne acc b.id t _ (fun hc => hb hc.symm)
    · rfl
  have hneAt : ∀ (acc : Coll Pattern) (b : PatternReference), b.id ≠ t →
      getDoc (if b.id ≠ "" then
        attachPattern acc b.id (mergeProblem orig u now) else acc) t = getDoc acc t := by
    intro acc b hb
    split
    · exact getDoc_attachPattern_ne acc b.id t _ (fun hc => hb hc.symm)
    · rfl
  refine ⟨?_, ?_, ?_⟩
  · intro hmemOld hnotNew
    obtain ⟨op₀, hop₀, hopid⟩ := List.mem_map.mp hmemOld
    rw [hpats]
    have hstepA : ∀ (acc : Coll Pattern) (b : PatternReference),
        b ∈ newPats.filter
          (fun np => ¬ orig.patterns.any (fun op => op.id == np.id)) →
        getDoc ((fun acc p =>
          if p.id ≠ "" then attachPattern acc p.id (mergeProblem orig u now)
          else acc) acc b) t = getDoc acc t := by
      intro acc b hb
      refine hneAt acc b ?_
      intro hc
      exact hnotNew (List.mem_map.mpr ⟨b, (List.mem_filter.mp hb).1, hc⟩)
    rw [getDoc_foldl_invar _ t _ hstepA]
    have hhitRm : ∀ (acc' : Coll Pattern) (b : PatternReference),
        b ∈ orig.patterns → (fun r => r.id) b = t →
        getDoc ((fun acc op =>
          if (¬ newPats.any (fun p => p.id == op.id)) ∧ op.id ≠ "" then
            removeProblemFromPattern acc op.id n
          else acc) acc' b) t =
          (getDoc acc' t).map (removeProblemRef n) := by
      intro acc' b hbmem hbid0
      have hbid : b.id = t := hbid0
      have hguard : (¬ newPats.any (fun p => p.id == b.id)) ∧ b.id ≠ "" := by
        constructor
        · intro hany
          obtain ⟨p, hp, hpeq⟩ := List.any_eq_true.mp hany
          have hpid : p.id = b.id := by simpa using hpeq
          exact hnotNew (List.mem_map.mpr ⟨p, hp, hpid.trans hbid⟩)
        · rw [hbid]; exact ht
      dsimp only
      rw [if_pos hguard, hbid]
      exact getDoc_updDoc_self acc' t _
    exact getDoc_foldl_hit _ (fun r => r.id) (removeProblemRef n) t _ hneRm
      hndOld op₀ hop₀ hopid hhitRm st.patterns
  · intro hmemNew hnotOld
    obtain ⟨np₀, hnp₀, hnpid⟩ := List.mem_map.mp hmemNew
    have hnp₀mem : np₀ ∈ newPats.filter
        (fun np => ¬ orig.patterns.any (fun op => op.id == np.id)) := by
      rw [List.mem_filter]
      refine ⟨hnp₀, ?_⟩
      simp only [decide_eq_true_eq]
      intro hany
      obtain ⟨op, hop, hopeq⟩ := List.any_eq_true.mp hany
      have hopid : op.id = np₀.id := by simpa using hopeq
      exact hnotOld (List.mem_map.mpr ⟨op, hop, hopid.trans hnpid⟩)
    have hndFil : ((newPats.filter
        (fun np => ¬ orig.patterns.any (fun op => op.id == np.id))).map
          (fun r => r.id)).Nodup :=
      hndNew.sublist (List.Sublist.map _ (List.filter_sublist _))
    have hhitAt : ∀ (acc' : Coll Pattern) (b : PatternReference),
        b ∈ newPats.filter
          (fun np => ¬ orig.patterns.any (fun op => op.id == np.id)) →
        (fun r => r.id) b = t →
        getDoc ((fun acc p =>
          if p.id ≠ "" then attachPattern acc p.id (mergeProblem orig u now)
          else acc) acc' b) t =
          (getDoc acc' t).map
            (fun p => addProblemRef (mergeProblem orig u now) (bumpUsage p)) := by
      intro acc' b hbmem hbid0
      have hbid : b.id = t := hbid0
      have hb : b.id ≠ "" := by rw [hbid]; exact ht
      dsimp only
      rw [if_pos hb, hbid]
      exact getDoc_attachPattern_self acc' t _
    have hstepRm : ∀ (acc : Coll Pattern) (b : PatternReference),
        b ∈ orig.patterns →
        getDoc ((fun acc op =>
          if (¬ newPats.any (fun p => p.id == op.id)) ∧ op.id ≠ "" then
            removeProblemFromPattern acc op.id n
          else acc) acc b) t = getDoc acc t := by
      intro acc b hb
      refine hneRm acc b ?_
      intro hc
      exact hnotOld (List.mem_map.mpr ⟨b, hb, hc⟩)
    rw [hpats]
    rw [getDoc_foldl_hit _ (fun r => r.id)
        (fun p => addProblemRef (mergeProblem orig u now) (bumpUsage p)) t _
        hneAt hndFil np₀ hnp₀mem hnpid hhitAt]
    rw [getDoc_foldl_invar _ t _ hstepRm]
  · intro hmemOld hmemNew
    have hstepA : ∀ (acc : Coll Pattern) (b : PatternReference),
        b ∈ newPats.filter
          (fun np => ¬ orig.patterns.any (fun op => op.id == np.id)) →
        getDoc ((fun acc p =>
          if p.id ≠ "" then attachPattern acc p.id (mergeProblem orig u now)
          else acc) acc b) t = getDoc acc t := by
      intro acc b hb
      refine hneAt acc b ?_
      intro hc
      have hpred := (List.mem_filter.mp hb).2
      simp only [decide_eq_true_eq] at hpred
      refine hpred ?_
      obtain ⟨op, hop, hopid⟩ := List.mem_map.mp hmemOld
      exact List.any_eq_true.mpr ⟨op, hop, by simp [hopid, hc]⟩
    have hstepRm : ∀ (acc : Coll Pattern) (b : PatternReference),
        b ∈ orig.patterns →
        getDoc ((fun acc op =>
          if (¬ newPats.any (fun p => p.id == op.id)) ∧ op.id ≠ "" then
            removeProblemFromPattern acc op.id n
          else acc) acc b) t = getDoc acc t := by
      intro acc b hb
      by_cases hbid : b.id = t
      · have hguard : ¬ ((¬ newPats.any (fun p => p.id == b.id)) ∧ b.id ≠ "") := by
          rintro ⟨hnone, -⟩
          refine hnone ?_
          obtain ⟨np, hnp, hnpid⟩ := List.mem_map.mp hmemNew
          exact List.any_eq_true.mpr ⟨np, hnp, by simp [hnpid, hbid]⟩
        dsimp only
        rw [if_neg hguard]
      · exact hneRm acc b hbid
    rw [hpats, getDoc_foldl_invar _ t _ hstepA, getDoc_foldl_invar _ t _ hstepRm]

theorem updateProblem_tricks_diff (st : Store) (n : Nat)
    (u : PartialInsertProblem) (now : String) (orig : Problem)
    (newTricks : List TrickReference) (t : String)
    (hor : getProblemDoc st.problems n = some orig)
    (hut : u.tricks = some newTricks)
    (hndOld : (orig.tricks.map (fun r => r.id)).Nodup)
    (hndNew : (newTricks.map (fun r => r.id)).Nodup)
    (ht : t ≠ "") :
    (t ∈ orig.tricks.map (fun r => r.id) → t ∉ newTricks.map (fun r => r.id) →
       getDoc (updateProblem st n u now).1.tricks t =
         (getDoc st.tricks t).map (removeProblemRefT n)) ∧
    (t ∈ newTricks.map (fun r => r.id) → t ∉ orig.tricks.map (fun r => r.id) →
       getDoc (updateProblem st n u now).1.tricks t =
         (getDoc st.tricks t).map
           (fun tk => addProblemRefT (mergeProblem orig u now) (bumpUsageT tk))) ∧
    (t ∈ orig.tricks.map (fun r => r.id) → t ∈ newTricks.map (fun r => r.id) →
       getDoc (updateProblem st n u now).1.tricks t = getDoc st.tricks t) := by
  have htrs : (updateProblem st n u now).1.tricks =
      (newTricks.filter
        (fun nt => ¬ orig.tricks.any (fun ot => ot.id == nt.id))).foldl
        (fun acc tr =>
          if tr.id ≠ "" then attachTrick acc tr.id (mergeProblem orig u now) else acc)
        (orig.tricks.foldl
          (fun acc ot =>
            if (¬ newTricks.any (fun tr => tr.id == ot.id)) ∧ ot.id ≠ "" then
              removeProblemFromTrick acc ot.id n
            else acc)
          st.tricks) := by
    simp only [updateProblem, hor, hut]
  have hneRm : ∀ (acc : Coll Trick) (b : TrickReference), b.id ≠ t →
      getDoc (if (¬ newTricks.any (fun tr => tr.id == b.id)) ∧ b.id ≠ "" then
        removeProblemFromTrick acc b.id n else acc) t = getDoc acc t := by
    intro acc b hb
    split
    · exact getDoc_updDoc_ne acc b.id t _ (fun hc => hb hc.symm)
    · rfl
  have hneAt : ∀ (acc : Coll Trick) (b : TrickReference), b.id ≠ t →
      getDoc (if b.id ≠ "" then
        attachTrick acc b.id (mergeProblem orig u now) else acc) t = getDoc acc t := by
    intro acc b hb
    split
    · exact getDoc_attachTrick_ne acc b.id t _ (fun hc => hb hc.symm)
    · rfl
  refine ⟨?_, ?_, ?_⟩
  · intro hmemOld hnotNew
    obtain ⟨op₀, hop₀, hopid⟩ := List.mem_map.mp hmemOld
    rw [htrs]
    have hstepA : ∀ (acc : Coll Trick) (b : TrickReference),
        b ∈ newTricks.filter
          (fun nt => ¬ orig.tricks.any (fun ot => ot.id == nt.id)) →
        getDoc ((fun acc tr =>
          if tr.id ≠ "" then attachTrick acc tr.id (mergeProblem orig u now)
          else acc) acc b) t = getDoc acc t := by
      intro acc b hb
      refine hneAt acc b ?_
      intro hc
      exact hnotNew (List.mem_map.mpr ⟨b, (List.mem_filter.mp hb).1, hc⟩)
    rw [getDoc_foldl_invar _ t _ hstepA]
    have hhitRm : ∀ (acc' : Coll Trick) (b : TrickReference),
        b ∈ orig.tricks → (fun r => r.id) b = t →
        getDoc ((fun acc ot =>
          if (¬ newTricks.any (fun tr => tr.id == ot.id)) ∧ ot.id ≠ "" then
            removeProblemFromTrick acc ot.id n
          else acc) acc' b) t =
          (getDoc acc' t).map (removeProblemRefT n) := by
      intro acc' b hbmem hbid0
      have hbid : b.id = t := hbid0
      have hguard : (¬ newTricks.any (fun tr => tr.id == b.id)) ∧ b.id ≠ "" := by
        constructor
        · intro hany
          obtain ⟨p, hp, hpeq⟩ := List.any_eq_true.mp hany
          have hpid : p.id = b.id := by simpa using hpeq
          exact hnotNew (List.mem_map.mpr ⟨p, hp, hpid.trans hbid⟩)
        · rw [hbid]; exact ht
      dsimp only
      rw [if_pos hguard, hbid]
      exact getDoc_updDoc_self acc' t _
    exact getDoc_foldl_hit _ (fun r => r.id) (removeProblemRefT n) t _ hneRm
      hndOld op₀ hop₀ hopid hhitRm st.tricks
  · intro hmemNew hnotOld
    obtain ⟨np₀, hnp₀, hnpid⟩ := List.mem_map.mp hmemNew
    have hnp₀mem : np₀ ∈ newTricks.filter
        (fun nt => ¬ orig.tricks.any (fun ot => ot.id == nt.id)) := by
      rw [List.mem_filter]
      refine ⟨hnp₀, ?_⟩
      simp only [decide_eq_true_eq]
      intro hany
      obtain ⟨op, hop, hopeq⟩ := List.any_eq_true.mp hany
      have hopid : op.id = np₀.id := by simpa using hopeq
      exact hnotOld (List.mem_map.mpr ⟨op, hop, hopid.trans hnpid⟩)
    have hndFil : ((newTricks.filter
        (fun nt => ¬ orig.tricks.any (fun ot => ot.id == nt.id))).map
          (fun r => r.id)).Nodup :=
      hndNew.sublist (List.Sublist.map _ (List.filter_sublist _))
    have hhitAt : ∀ (acc' : Coll Trick) (b : TrickReference),
        b ∈ newTricks.filter
          (fun nt => ¬ orig.tricks.any (fun ot => ot.id == nt.id)) →
        (fun r => r.id) b = t →
        getDoc ((fun acc tr =>
          if tr.id ≠ "" then attachTrick acc tr.id (mergeProblem orig u now)
          else acc) acc' b) t =
          (getDoc acc' t).map
            (fun tk => addProblemRefT (mergeProblem orig u now) (bumpUsageT tk)) := by
      intro acc' b hbmem hbid0
      have hbid : b.id = t := hbid0
      have hb : b.id ≠ "" := by rw [hbid]; exact ht
      dsimp only
      rw [if_pos hb, hbid]
      exact getDoc_attachTrick_self acc' t _
    have hstepRm : ∀ (acc : Coll Trick) (b : TrickReference),
        b ∈ orig.tricks →
        getDoc ((fun acc ot =>
          if (¬ newTricks.any (fun tr => tr.id == ot.id)) ∧ ot.id ≠ "" then
            removeProblemFromTrick acc ot.id n
          else acc) acc b) t = getDoc acc t := by
      intro acc b hb
      refine hneRm acc b ?_
      intro hc
      exact hnotOld (List.mem_map.mpr ⟨b, hb, hc⟩)
    rw [htrs]
    rw [getDoc_foldl_hit _ (fun r => r.id)
        (fun tk => addProblemRefT (mergeProblem orig u now) (bumpUsageT tk)) t _
        hneAt hndFil np₀ hnp₀mem hnpid hhitAt]
    rw [getDoc_foldl_invar _ t _ hstepRm]
  · intro hmemOld hmemNew
    have hstepA : ∀ (acc : Coll Trick) (b : TrickReference),
        b ∈ newTricks.filter
          (fun nt => ¬ orig.tricks.any (fun ot => ot.id == nt.id)) →
        getDoc ((fun acc tr =>
          if tr.id ≠ "" then attachTrick acc tr.id (mergeProblem orig u now)
          else acc) acc b) t = getDoc acc t := by
      intro acc b hb
      refine hneAt acc b ?_
      intro hc
      have hpred := (List.mem_filter.mp hb).2
      simp only [decide_eq_true_eq] at hpred
      refine hpred ?_
      obtain ⟨op, hop, hopid⟩ := List.mem_map.mp hmemOld
      exact List.any_eq_true.mpr ⟨op, hop, by simp [hopid, hc]⟩
    have hstepRm : ∀ (acc : Coll Trick) (b : TrickReference),
        b ∈ orig.tricks →
        getDoc ((fun acc ot =>
          if (¬ newTricks.any (fun tr => tr.id == ot.id)) ∧ ot.id ≠ "" then
            removeProblemFromTrick acc ot.id n
          else acc) acc b) t = getDoc acc t := by
      intro acc b hb
      by_cases hbid : b.id = t
      · have hguard : ¬ ((¬ newTricks.any (fun tr => tr.id == b.id)) ∧ b.id ≠ "") := by
          rintro ⟨hnone, -⟩
          refine hnone ?_
          obtain ⟨np, hnp, hnpid⟩ := List.mem_map.mp hmemNew
          exact List.any_eq_true.mpr ⟨np, hnp, by simp [hnpid, hbid]⟩
        dsimp only
        rw [if_neg hguard]
      · exact hneRm acc b hbid
    rw [htrs, getDoc_foldl_invar _ t _ hstepA, getDoc_foldl_invar _ t _ hstepRm]

/-- C3: when an update's partial data includes a `patterns` (resp. `tricks`)
array, `updateProblem` detaches every tag whose id is in the old array but
not the new one, attaches every tag whose id is in the new array but not the
old one using the post-update problem record, and leaves tags whose id is in
both arrays untouched; membership is decided purely by reference id
(the statements quantify over the id `t` alone, never name or description). -/
theorem updateProblem_diff_sync (st : Store) (n : Nat)
    (u : PartialInsertProblem) (now : String) (orig : Problem)
    (newPats : List PatternReference) (newTricks : List TrickReference)
    (t : String)
    (hor : getProblemDoc st.problems n = some orig)
    (hup : u.patterns = some newPats)
    (hut : u.tricks = some newTricks)
    (hndOldP : (orig.patterns.map (fun r => r.id)).Nodup)
    (hndNewP : (newPats.map (fun r => r.id)).Nodup)
    (hndOldT : (orig.tricks.map (fun r => r.id)).Nodup)
    (hndNewT : (newTricks.map (fun r => r.id)).Nodup)
    (ht : t ≠ "") :
    (t ∈ orig.patterns.map (fun r => r.id) → t ∉ newPats.map (fun r => r.id) →
       getDoc (updateProblem st n u now).1.patterns t =
         (getDoc st.patterns t).map (removeProblemRef n)) ∧
    (t ∈ newPats.map (fun r => r.id) → t ∉ orig.patterns.map (fun r => r.id) →
       getDoc (updateProblem st n u now).1.patterns t =
         (getDoc st.patterns t).map
           (fun p => addProblemRef (mergeProblem orig u now) (bumpUsage p))) ∧
    (t ∈ orig.patterns.map (fun r => r.id) → t ∈ newPats.map (fun r => r.id) →
       getDoc (updateProblem st n u now).1.patterns t = getDoc st.patterns t) ∧
    (t ∈ orig.tricks.map (fun r => r.id) → t ∉ newTricks.map (fun r => r.id) →
       getDoc (updateProblem st n u now).1.tricks t =
         (getDoc st.tricks t).map (removeProblemRefT n)) ∧
    (t ∈ newTricks.map (fun r => r.id) → t ∉ orig.tricks.map (fun r => r.id) →
       getDoc (updateProblem st n u now).1.tricks t =
         (getDoc st.tricks t).map
           (fun tk => addProblemRefT (mergeProblem orig u now) (bumpUsageT tk))) ∧
    (t ∈ orig.tricks.map (fun r => r.id) → t ∈ newTricks.map (fun r => r.id) →
       getDoc (updateProblem st n u now).1.tricks t = getDoc st.tricks t) := by
  obtain ⟨hp1, hp2, hp3⟩ :=
    updateProblem_patterns_diff st n u now orig newPats t hor hup hndOldP hndNewP ht
  obtain ⟨ht1, ht2, ht3⟩ :=
    updateProblem_tricks_diff st n u now orig newTricks t hor hut hndOldT hndNewT ht
  exact ⟨hp1, hp2, hp3, ht1, ht2, ht3⟩

/-- Pattern reference with id `a`, used by the C3 witness. -/
def refA : PatternReference := { id := "a", name := [104], description := "pa" }

/-- Pattern reference with id `b`. -/
def refB : PatternReference := { id := "b", name := [105], description := "pb" }

/-- Pattern reference with id `c`. -/
def refC : PatternReference := { id := "c", name := [106], description := "pc" }

/-- Trick reference with id `x`. -/
def refX : TrickReference := { id := "x", name := [107], description := "tx" }

/-- A stored problem tagged with patterns `a`, `b` and trick `x`. -/
def problemAB : Problem :=
  { leetcodeNumber := 1, title := [116], difficulty := "Easy",
    isStarred := false, isCompleted := false,
    patterns := [refA, refB], tricks := [refX],
    createdAt := "t0", updatedAt := "t0" }

/-- A store with problem 1 and pattern documents `a`, `b`, `c`, trick `x`. -/
def storeABX : Store :=
  { problems := [(1, problemAB)],
    patterns :=
      [("a", { name := [104], description := "pa", usageCount := 1,
               problems := [⟨1, [116]⟩] }),
       ("b", { name := [105], description := "pb", usageCount := 1,
               problems := [⟨1, [116]⟩] }),
       ("c", { name := [106], description := "pc", usageCount := 1,
               problems := [] })],
    tricks :=
      [("x", { name := [107], description := "tx", usageCount := 1,
               problems := [⟨1, [116]⟩] })] }

/-- The update replacing patterns `[a, b]` with `[b, c]`, keeping trick `x`. -/
def updBC : PartialInsertProblem :=
  { patterns := some [refB, refC], tricks := some [refX] }

/-- Witness for C3: on `storeABX`, updating problem 1 from patterns
`[a, b]` to `[b, c]` detaches pattern `a`. -/
theorem updateProblem_diff_sync_witness :
    getProblemDoc storeABX.problems 1 = some problemAB ∧
    updBC.patterns = some [refB, refC] ∧
    updBC.tricks = some [refX] ∧
    (problemAB.patterns.map (fun r => r.id)).Nodup ∧
    (([refB, refC] : List PatternReference).map (fun r => r.id)).Nodup ∧
    (problemAB.tricks.map (fun r => r.id)).Nodup ∧
    (([refX] : List TrickReference).map (fun r => r.id)).Nodup ∧
    "a" ≠ "" ∧
    "a" ∈ problemAB.patterns.map (fun r => r.id) ∧
    "a" ∉ ([refB, refC] : List PatternReference).map (fun r => r.id) ∧
    getDoc (updateProblem storeABX 1 updBC "t1").1.patterns "a" =
      (getDoc storeABX.patterns "a").map (removeProblemRef 1) :=
  ⟨by decide, by decide, by decide, by decide, by decide, by decide, by decide,
   by decide, by decide, by decide,
   (updateProblem_diff_sync storeABX 1 updBC "t1" problemAB [refB, refC] [refX]
      "a" (by decide) (by decide) (by decide) (by decide) (by decide)
      (by decide) (by decide) (by decide)).1 (by decide) (by decide)⟩

theorem getProblemDoc_filter_ne (s : ProblemColl) (n : Nat) :
    getProblemDoc (s.filter (fun e => e.1 != n)) n = none := by
  induction s with
  | nil => rfl
  | cons e t ih =>
    by_cases h : e.1 = n
    · have hb : (e.1 != n) = false := by simp [h]
      simpa [List.filter_cons, hb] using ih
    · have hb : (e.1 != n) = true := by simp [h]
      simpa [List.filter_cons, hb, getProblemDoc, h] using ih

/-- C4: for a stored problem, `deleteProblem` detaches the problem from
every pattern and trick listed on the record (each listed tag document
undergoes the detach step `removeProblemRef`, which drops the reference and
decrements `usageCount` by 1 floored at 0), removes the problem record and
returns `true`; for an absent `leetcodeNumber` it returns `false` and
changes nothing. -/
theorem deleteProblem_cascade (st : Store) (n : Nat) (pb : Problem)
    (hpb : getProblemDoc st.problems n = some pb)
    (hndP : (pb.patterns.map (fun r => r.id)).Nodup)
    (hndT : (pb.tricks.map (fun r => r.id)).Nodup) :
    (deleteProblem st n).2 = true ∧
    getProblemDoc (deleteProblem st n).1.problems n = none ∧
    (∀ t, t ≠ "" → t ∈ pb.patterns.map (fun r => r.id) →
       getDoc (deleteProblem st n).1.patterns t =
         (getDoc st.patterns t).map (removeProblemRef n)) ∧
    (∀ t, t ≠ "" → t ∈ pb.tricks.map (fun r => r.id) →
       getDoc (deleteProblem st n).1.tricks t =
         (getDoc st.tricks t).map (removeProblemRefT n)) ∧
    (∀ st' : Store, getProblemDoc st'.problems n = none →
       deleteProblem st' n = (st', false)) := by
  refine ⟨?_, ?_, ?_, ?_, ?_⟩
  · simp [deleteProblem, hpb]
  · have : (deleteProblem st n).1.problems =
        st.problems.filter (fun e => e.1 != n) := by
      simp only [deleteProblem, hpb]
    rw [this]
    exact getProblemDoc_filter_ne st.problems n
  · intro t ht hmem
    obtain ⟨r₀, hr₀, hrid⟩ := List.mem_map.mp hmem
    have hpats : (deleteProblem st n).1.patterns =
        pb.patterns.foldl
          (fun acc pr =>
            if pr.id ≠ "" then removeProblemFromPattern acc pr.id n else acc)
          st.patterns := by
      simp only [deleteProblem, hpb]
    rw [hpats]
    have hne : ∀ (acc : Coll Pattern) (b : PatternReference), b.id ≠ t →
        getDoc (if b.id ≠ "" then removeProblemFromPattern acc b.id n else acc) t =
          getDoc acc t := by
      intro acc b hb
      split
      · exact getDoc_updDoc_ne acc b.id t _ (fun hc => hb hc.symm)
      · rfl
    have hhit : ∀ (acc' : Coll Pattern) (b : PatternReference),
        b ∈ pb.patterns → (fun r => r.id) b = t →
        getDoc ((fun acc pr =>
          if pr.id ≠ "" then removeProblemFromPattern acc pr.id n else acc) acc' b) t =
          (getDoc acc' t).map (removeProblemRef n) := by
      intro acc' b hbmem hbid0
      have hbid : b.id = t := hbid0
      have hb : b.id ≠ "" := by rw [hbid]; exact ht
      dsimp only
      rw [if_pos hb, hbid]
      exact getDoc_updDoc_self acc' t _
    exact getDoc_foldl_hit _ (fun r => r.id) (removeProblemRef n) t _ hne
      hndP r₀ hr₀ hrid hhit st.patterns
  · intro t ht hmem
    obtain ⟨r₀, hr₀, hrid⟩ := List.mem_map.mp hmem
    have htrs : (deleteProblem st n).1.tricks =
        pb.tricks.foldl
          (fun acc tr =>
            if tr.id ≠ "" then removeProblemFromTrick acc tr.id n else acc)
          st.tricks := by
      simp only [deleteProblem, hpb]
    rw [htrs]
    have hne : ∀ (acc : Coll Trick) (b : TrickReference), b.id ≠ t →
        getDoc (if b.id ≠ "" then removeProblemFromTrick acc b.id n else acc) t =
          getDoc acc t := by
      intro acc b hb
      split
      · exact getDoc_updDoc_ne acc b.id t _ (fun hc => hb hc.symm)
      · rfl
    have hhit : ∀ (acc' : Coll Trick) (b : TrickReference),
        b ∈ pb.tricks → (fun r => r.id) b = t →
        getDoc ((fun acc tr =>
          if tr.id ≠ "" then removeProblemFromTrick acc tr.id n else acc) acc' b) t =
          (getDoc acc' t).map (removeProblemRefT n) := by
      intro acc' b hbmem hbid0
      have hbid : b.id = t := hbid0
      have hb : b.id ≠ "" := by rw [hbid]; exact ht
      dsimp only
      rw [if_pos hb, hbid]
      exact getDoc_updDoc_self acc' t _
    exact getDoc_foldl_hit _ (fun r => r.id) (removeProblemRefT n) t _ hne
      hndT r₀ hr₀ hrid hhit st.tricks
  · intro st' hst'
    simp [deleteProblem, hst']

/-- Witness for C4 on `storeABX`: deleting problem 1 detaches pattern `a`
and removes the record. -/
theorem deleteProblem_cascade_witness :
    getProblemDoc storeABX.problems 1 = some problemAB ∧
    (problemAB.patterns.map (fun r => r.id)).Nodup ∧
    (problemAB.tricks.map (fun r => r.id)).Nodup ∧
    (deleteProblem storeABX 1).2 = true ∧
    getDoc (deleteProblem storeABX 1).1.patterns "a" =
      (getDoc storeABX.patterns "a").map (removeProblemRef 1) := by
  have h := deleteProblem_cascade storeABX 1 problemAB
    (by decide) (by decide) (by decide)
  exact ⟨by decide, by decide, by decide, h.1,
    h.2.2.1 "a" (by decide) (by decide)⟩

/-- The code point `` appended by the prefix-range scan. -/
def highCodePoint : Nat := 63743

/-- The prefix-range scan of `searchPatterns`: documents ordered by `name`,
restricted with `startAt(queryLower)`/`endAt(queryLower + '')`
(storage.ts, lines 281-285); the range bounds compare the raw stored name. -/
def prefixScanPatterns (s : Coll Pattern) (query : JStr) : List (String × Pattern) :=
  (List.insertionSort (fun a b => strLeJ a.2.name b.2.name = true) s).filter
    (fun e => strLeJ (toLowerJ query) e.2.name &&
      strLeJ e.2.name (toLowerJ query ++ [highCodePoint]))

/-- The full-scan case-insensitive substring filter of `searchPatterns`
(storage.ts, lines 295-300). -/
def substringScanPatterns (s : Coll Pattern) (query : JStr) : List (String × Pattern) :=
  s.filter (fun e => containsJ (toLowerJ query) (toLowerJ e.2.name))

/-- The duplicate-removing merge of the two result sets (storage.ts,
lines 303-308): push each second-scan result whose id is not yet present. -/
def mergeById {α : Type} (init l : List (String × α)) : List (String × α) :=
  l.foldl
    (fun acc r => if acc.any (fun item => item.1 == r.1) then acc else acc ++ [r])
    init

/-- `searchPatterns(query)` (storage.ts, lines 276-311). -/
def searchPatterns (s : Coll Pattern) (query : JStr) : List (String × Pattern) :=
  mergeById (prefixScanPatterns s query) (substringScanPatterns s query)

/-- The prefix-range scan of `searchTricks` (storage.ts, lines 449-453). -/
def prefixScanTricks (s : Coll Trick) (query : JStr) : List (String × Trick) :=
  (List.insertionSort (fun a b => strLeJ a.2.name b.2.name = true) s).filter
    (fun e => strLeJ (toLowerJ query) e.2.name &&
      strLeJ e.2.name (toLowerJ query ++ [highCodePoint]))

/-- The full-scan substring filter of `searchTricks` (storage.ts, lines 463-468). -/
def substringScanTricks (s : Coll Trick) (query : JStr) : List (String × Trick) :=
  s.filter (fun e => containsJ (toLowerJ query) (toLowerJ e.2.name))

/-- `searchTricks(query)` (storage.ts, lines 444-479). -/
def searchTricks (s : Coll Trick) (query : JStr) : List (String × Trick) :=
  mergeById (prefixScanTricks s query) (substringScanTricks s query)

theorem startsWith_of_between (c : Nat) :
    ∀ (q n : JStr), strLeJ q n = true → strLeJ n (q ++ [c]) = true →
      startsWithJ q n = true
  | [], _, _, _ => rfl
  | _ :: _, [], h1, _ => by simp [strLeJ, strLtJ] at h1
  | a :: as, b :: bs, h1, h2 => by
    simp only [strLeJ, strLtJ, List.cons_append] at h1 h2
    by_cases hba : b < a
    · simp [hba] at h1
    · by_cases hab : a < b
      · simp [strLtJ, hab, hba] at h2
      · have hEq : a = b := by omega
        subst hEq
        simp only [startsWithJ, beq_self_eq_true, Bool.true_and]
        refine startsWith_of_between c as bs ?_ ?_
        · simpa [strLeJ, strLtJ, hba, hab] using h1
        · simpa [strLeJ, strLtJ, hba, hab] using h2

theorem containsJ_of_startsWith : ∀ (q n : JStr),
    startsWithJ q n = true → containsJ q n = true
  | _, [], h => by simpa [containsJ] using h
  | _, _ :: _, h => by simp [containsJ, h]

theorem jsToLower_idem (c : Nat) : jsToLower (jsToLower c) = jsToLower c := by
  by_cases h : 65 ≤ c ∧ c ≤ 90
  · have h1 : jsToLower c = c + 32 := by unfold jsToLower; rw [if_pos h]
    rw [h1]
    unfold jsToLower
    rw [if_neg (by omega : ¬ (65 ≤ c + 32 ∧ c + 32 ≤ 90))]
  · have h1 : jsToLower c = c := by unfold jsToLower; rw [if_neg h]
    rw [h1]
    exact h1

theorem startsWith_toLower : ∀ (q n : JStr),
    startsWithJ (toLowerJ q) n = true →
      startsWithJ (toLowerJ q) (toLowerJ n) = true
  | [], _, _ => rfl
  | _ :: _, [], h => by simp [toLowerJ, startsWithJ] at h
  | a :: as, b :: bs, h => by
    simp only [toLowerJ, List.map_cons, startsWithJ, Bool.and_eq_true,
      beq_iff_eq] at h ⊢
    obtain ⟨h1, h2⟩ := h
    exact ⟨by rw [← h1, jsToLower_idem], startsWith_toLower as bs h2⟩

theorem mem_mergeById_of_init {α : Type} (l : List (String × α)) :
    ∀ (init : List (String × α)) (a : String × α),
      a ∈ init → a ∈ mergeById init l := by
  induction l with
  | nil => intro init a ha; exact ha
  | cons r t ih =>
    intro init a ha
    unfold mergeById
    rw [List.foldl_cons]
    refine ih _ a ?_
    split
    · exact ha
    · exact List.mem_append_left _ ha

theorem mem_mergeById {α : Type} (l : List (String × α)) :
    ∀ (init : List (String × α)) (a : String × α),
      a ∈ mergeById init l → a ∈ init ∨ a ∈ l := by
  induction l with
  | nil => intro init a ha; exact Or.inl ha
  | cons r t ih =>
    intro init a ha
    unfold mergeById at ha
    rw [List.foldl_cons] at ha
    rcases ih _ a ha with h | h
    · split at h
      · exact Or.inl h
      · rcases List.mem_append.mp h with h' | h'
        · exact Or.inl h'
        · simp only [List.mem_singleton] at h'
          subst h'
          exact Or.inr (List.mem_cons_self a t)
    · exact Or.inr (List.mem_cons_of_mem r h)

theorem entry_eq_of_nodup_keys {α : Type} (s : List (String × α))
    (hnd : (s.map (fun e => e.1)).Nodup) (x y : String × α)
    (hx : x ∈ s) (hy : y ∈ s) (hxy : x.1 = y.1) : x = y := by
  induction s with
  | nil => cases hx
  | cons e t ih =>
    have hnd0 : (e.1 :: t.map (fun e => e.1)).Nodup := by
      simpa only [List.map_cons] using hnd
    have hnd' := List.nodup_cons.mp hnd0
    rcases List.mem_cons.mp hx with rfl | hx'
    · rcases List.mem_cons.mp hy with rfl | hy'
      · rfl
      · exact absurd (hxy ▸ List.mem_map.mpr ⟨y, hy', rfl⟩) hnd'.1
    · rcases List.mem_cons.mp hy with rfl | hy'
      · exact absurd (hxy ▸ List.mem_map.mpr ⟨x, hx', rfl⟩)
          (fun hc => hnd'.1 hc)
      · exact ih hnd'.2 hx' hy'

theorem mem_mergeById_of_mem {α : Type} (s : List (String × α))
    (hnd : (s.map (fun e => e.1)).Nodup) (l : List (String × α)) :
    ∀ (init : List (String × α)), (∀ x ∈ init, x ∈ s) → (∀ x ∈ l, x ∈ s) →
      ∀ a ∈ l, a ∈ mergeById init l := by
  induction l with
  | nil => intro init _ _ a ha; cases ha
  | cons r t ih =>
    intro init hinit hl a ha
    unfold mergeById
    rw [List.foldl_cons]
    have hinit' : ∀ x ∈ (if init.any (fun item => item.1 == r.1) then init
        else init ++ [r]), x ∈ s := by
      intro x hx
      split at hx
      · exact hinit x hx
      · rcases List.mem_append.mp hx with h | h
        · exact hinit x h
        · simp only [List.mem_singleton] at h
          subst h
          exact hl x (List.mem_cons_self x t)
    rcases List.mem_cons.mp ha with rfl | ha'
    · refine mem_mergeById_of_init t _ a ?_
      by_cases hany : init.any (fun item => item.1 == a.1) = true
      · rw [if_pos hany]
        obtain ⟨x, hx, hxr⟩ := List.any_eq_true.mp hany
        have hxa : x = a := entry_eq_of_nodup_keys s hnd x a (hinit x hx)
          (hl a (List.mem_cons_self a t)) (by simpa using hxr)
        exact hxa ▸ hx
      · rw [if_neg hany]
        exact List.mem_append_right _ (List.mem_singleton.mpr rfl)
    · exact ih _ hinit' (fun x hx => hl x (List.mem_cons_of_mem r hx)) a ha'

theorem mergeById_keys_nodup {α : Type} (l : List (String × α)) :
    ∀ (init : List (String × α)), ((init.map (fun e => e.1)).Nodup) →
      ((mergeById init l).map (fun e => e.1)).Nodup := by
  induction l with
  | nil => intro init hinit; exact hinit
  | cons r t ih =>
    intro init hinit
    unfold mergeById
    rw [List.foldl_cons]
    refine ih _ ?_
    by_cases hany : init.any (fun item => item.1 == r.1) = true
    · rw [if_pos hany]; exact hinit
    · rw [if_neg hany]
      rw [List.map_append]
      refine List.Nodup.append hinit (by simp) ?_
      simp only [List.map_cons, List.map_nil, List.disjoint_singleton]
      intro hk
      rcases List.mem_map.mp hk with ⟨x, hx, hxk⟩
      have hany' : init.any (fun item => item.1 == r.1) = false := by
        cases h2 : init.any (fun item => item.1 == r.1)
        · rfl
        · exact absurd h2 hany
      exact List.any_eq_false.mp hany' x hx (by simp [hxk])

theorem prefixScanPatterns_subset (s : Coll Pattern) (q : JStr) :
    ∀ e ∈ prefixScanPatterns s q, e ∈ substringScanPatterns s q := by
  intro e he
  obtain ⟨hmem, hpred⟩ := List.mem_filter.mp he
  have hmem' : e ∈ s := (List.mem_insertionSort _).mp hmem
  rw [Bool.and_eq_true] at hpred
  obtain ⟨h1, h2⟩ := hpred
  have hstart : startsWithJ (toLowerJ q) e.2.name = true :=
    startsWith_of_between highCodePoint (toLowerJ q) e.2.name h1 h2
  have hcontains : containsJ (toLowerJ q) (toLowerJ e.2.name) = true :=
    containsJ_of_startsWith _ _ (startsWith_toLower q e.2.name hstart)
  exact List.mem_filter.mpr ⟨hmem', hcontains⟩

theorem prefixScanTricks_subset (s : Coll Trick) (q : JStr) :
    ∀ e ∈ prefixScanTricks s q, e ∈ substringScanTricks s q := by
  intro e he
  obtain ⟨hmem, hpred⟩ := List.mem_filter.mp he
  have hmem' : e ∈ s := (List.mem_insertionSort _).mp hmem
  rw [Bool.and_eq_true] at hpred
  obtain ⟨h1, h2⟩ := hpred
  have hstart : startsWithJ (toLowerJ q) e.2.name = true :=
    startsWith_of_between highCodePoint (toLowerJ q) e.2.name h1 h2
  have hcontains : containsJ (toLowerJ q) (toLowerJ e.2.name) = true :=
    containsJ_of_startsWith _ _ (startsWith_toLower q e.2.name hstart)
  exact List.mem_filter.mpr ⟨hmem', hcontains⟩

/-- C8: the merged output of the two scans in `searchPatterns`/`searchTricks`
contains exactly the records matched by the single full-scan case-insensitive
substring filter (the prefix scan is a subset of the substring scan), and it
contains each matching record exactly once (no duplicate document ids). -/
theorem search_refines_substring_scan (s : Coll Pattern) (st : Coll Trick)
    (q : JStr)
    (hnds : (s.map (fun e => e.1)).Nodup)
    (hndt : (st.map (fun e => e.1)).Nodup) :
    ((∀ e ∈ prefixScanPatterns s q, e ∈ substringScanPatterns s q) ∧
     (∀ e, e ∈ searchPatterns s q ↔ e ∈ substringScanPatterns s q) ∧
     ((searchPatterns s q).map (fun e => e.1)).Nodup) ∧
    ((∀ e ∈ prefixScanTricks st q, e ∈ substringScanTricks st q) ∧
     (∀ e, e ∈ searchTricks st q ↔ e ∈ substringScanTricks st q) ∧
     ((searchTricks st q).map (fun e => e.1)).Nodup) := by
  have hprefsubP : ∀ x ∈ prefixScanPatterns s q, x ∈ s := by
    intro x hx
    exact (List.mem_insertionSort _).mp (List.mem_filter.mp hx).1
  have hsubsubP : ∀ x ∈ substringScanPatterns s q, x ∈ s := by
    intro x hx
    exact (List.mem_filter.mp hx).1
  have hndPrefP : ((prefixScanPatterns s q).map (fun e => e.1)).Nodup := by
    have hperm : List.Perm
        ((List.insertionSort (fun a b => strLeJ a.2.name b.2.name = true) s).map
          (fun e => e.1))
        (s.map (fun e => e.1)) :=
      List.Perm.map _ (List.perm_insertionSort _ s)
    have hndSort := hperm.nodup_iff.mpr hnds
    exact hndSort.sublist (List.Sublist.map _ (List.filter_sublist _))
  have hprefsubT : ∀ x ∈ prefixScanTricks st q, x ∈ st := by
    intro x hx
    exact (List.mem_insertionSort _).mp (List.mem_filter.mp hx).1
  have hsubsubT : ∀ x ∈ substringScanTricks st q, x ∈ st := by
    intro x hx
    exact (List.mem_filter.mp hx).1
  have hndPrefT : ((prefixScanTricks st q).map (fun e => e.1)).Nodup := by
    have hperm : List.Perm
        ((List.insertionSort (fun a b => strLeJ a.2.name b.2.name = true) st).map
          (fun e => e.1))
        (st.map (fun e => e.1)) :=
      List.Perm.map _ (List.perm_insertionSort _ st)
    have hndSort := hperm.nodup_iff.mpr hndt
    exact hndSort.sublist (List.Sublist.map _ (List.filter_sublist _))
  refine ⟨⟨prefixScanPatterns_subset s q, ?_, ?_⟩,
    ⟨prefixScanTricks_subset st q, ?_, ?_⟩⟩
  · intro e
    constructor
    · intro he
      rcases mem_mergeById _ _ e he with h | h
      · exact prefixScanPatterns_subset s q e h
      · exact h
    · intro he
      exact mem_mergeById_of_mem s hnds _ _ hprefsubP hsubsubP e he
  · exact mergeById_keys_nodup _ _ hndPrefP
  · intro e
    constructor
    · intro he
      rcases mem_mergeById _ _ e he with h | h
      · exact prefixScanTricks_subset st q e h
      · exact h
    · intro he
      exact mem_mergeById_of_mem st hndt _ _ hprefsubT hsubsubT e he
  · exact mergeById_keys_nodup _ _ hndPrefT

/-- Witness for C8 on a concrete two-document store: searching for `a`
(code point 97) returns exactly the substring matches, once each. -/
theorem search_refines_substring_scan_witness :
    (([("p1", samplePattern), ("p2", samplePatternWithRef)] :
        Coll Pattern).map (fun e => e.1)).Nodup ∧
    (([("x1", sampleTrick)] : Coll Trick).map (fun e => e.1)).Nodup ∧
    ((searchPatterns [("p1", samplePattern), ("p2", samplePatternWithRef)]
        [97]).map (fun e => e.1)).Nodup := by
  have h := search_refines_substring_scan
    [("p1", samplePattern), ("p2", samplePatternWithRef)]
    [("x1", sampleTrick)] [97] (by decide) (by decide)
  exact ⟨by decide, by decide, h.1.2.2⟩

/-- The filter predicate inside `filteredProblems`
(ProblemList.tsx, lines 352-372): matchesSearch, matchesDifficulty,
matchesStarred and matchesCompleted combined with `&&`. -/
def matchesFilters (searchTerm : JStr) (difficulty : String)
    (filterStarred filterCompleted : Bool) (pb : Problem) : Bool :=
  let matchesSearch :=
    containsJ (toLowerJ searchTerm) (toLowerJ pb.title) ||
      pb.patterns.any (fun p => containsJ (toLowerJ searchTerm) (toLowerJ p.name))
  let matchesDifficulty := difficulty == "all" || pb.difficulty == difficulty
  let matchesStarred := !filterStarred || pb.isStarred
  let matchesCompleted := !filterCompleted || pb.isCompleted
  matchesSearch && matchesDifficulty && matchesStarred && matchesCompleted

/-- The filtering stage of `filteredProblems` (ProblemList.tsx,
lines 352-372); the subsequent `.sort` step only reorders and is not part of
which problems are kept. -/
def filteredProblems (problems : List Problem) (searchTerm : JStr)
    (difficulty : String) (filterStarred filterCompleted : Bool) : List Problem :=
  problems.filter (matchesFilters searchTerm difficulty filterStarred filterCompleted)

/-- C9: the query surface keeps exactly the problems satisfying the
conjunction of the active predicates: difficulty equal to the selection or
the selection is `all`; the title or some attached pattern name contains the
search term case-insensitively; and when the starred (resp. completed)
toggle is active, `isStarred` (resp. `isCompleted`) is true. -/
theorem filteredProblems_spec (problems : List Problem) (searchTerm : JStr)
    (difficulty : String) (filterStarred filterCompleted : Bool) (pb : Problem) :
    pb ∈ filteredProblems problems searchTerm difficulty
        filterStarred filterCompleted ↔
      pb ∈ problems ∧
      (difficulty = "all" ∨ pb.difficulty = difficulty) ∧
      (containsJ (toLowerJ searchTerm) (toLowerJ pb.title) = true ∨
        ∃ p ∈ pb.patterns,
          containsJ (toLowerJ searchTerm) (toLowerJ p.name) = true) ∧
      (filterStarred = true → pb.isStarred = true) ∧
      (filterCompleted = true → pb.isCompleted = true) := by
  cases filterStarred <;> cases filterCompleted <;>
    simp [filteredProblems, matchesFilters, List.mem_filter,
      Bool.and_eq_true, Bool.or_eq_true, List.any_eq_true, beq_iff_eq] <;>
    tauto

end LeetcodeTracker
